import Mathlib

/-!
# Verification of the ETL merge pipeline (`ETL-Project/etl_script.py`)

This file gives a shallow embedding, in Lean 4, of the extract / transform /
load functions of the ETL script, and proves (or refutes) the specification
claims about them.

Conventions of the embedding:

* A Python `dict` with string keys and string values is modelled as an
  ordered association list `List (String × String)` (`Rec` below); Python
  dicts preserve insertion order, `d[k] = v` on an existing key keeps the
  key's position, and new keys are appended at the end — `aset` mirrors this.
  Python dicts cannot hold duplicate keys, so theorems about arbitrary input
  records carry a `Nodup` hypothesis on the key list where it matters.
* `d.get(k)` is `aget d k : Option value`; `d.get(k, default)` is
  `(aget d k).getD default`.  A value of `None` produced by `c.get('email')`
  is modelled as the empty string: everywhere the script looks at it, it is
  only tested for truthiness, and both `None` and `""` are falsy.
* Records whose key set is fixed by construction in the script (billing
  records, vehicle records, salary records, flagged-prompt records, and the
  merged records handed to the database loader) are modelled as structures
  with exactly those fields.
* Fallible operations (Pony ORM `Entity.get` raising on multiple matches,
  `by_id[current_id][-1]` raising `IndexError`, `cust['name']` raising
  `KeyError`) return `Except String`.
* Python `str.strip()`, `str.lower()`, `str.startswith(p)` and
  `str.split(":", 1)[1]` are modelled by `pyStrip`, `pyLower`,
  `pyStartsWith` and `afterColon`, defined by structural recursion over the
  character list of the string (so that concrete witnesses evaluate inside
  the kernel).  `pyStrip` strips the ASCII whitespace characters, which is
  what the strings appearing in this pipeline contain.
-/

/-! ## Python string primitives -/

/-- `s.strip()`: remove leading and trailing whitespace. -/
def pyStrip (s : String) : String :=
  ⟨((s.data.dropWhile Char.isWhitespace).reverse.dropWhile Char.isWhitespace).reverse⟩

/-- `s.lower()`. -/
def pyLower (s : String) : String :=
  ⟨s.data.map Char.toLower⟩

/-- `s.startswith(p)`. -/
def pyStartsWith (s p : String) : Bool :=
  p.data.isPrefixOf s.data

/-- `s.split(":", 1)[1]`: everything after the first colon (used only on
lines that are known to contain one). -/
def afterColon (s : String) : String :=
  ⟨(s.data.dropWhile (fun ch => ch ≠ ':')).drop 1⟩

/-- A Python dict with string keys/values, as an ordered association list. -/
abbrev Rec := List (String × String)

/-- `m.get(k)`: the value stored at key `k` (first occurrence). -/
def aget {α : Type} : List (String × α) → String → Option α
  | [], _ => none
  | p :: m, k => if p.1 == k then some p.2 else aget m k

/-- `m[k] = v`: overwrite the value at `k` in place, or append `(k, v)` when
the key is absent (Python dicts keep insertion order). -/
def aset {α : Type} : List (String × α) → String → α → List (String × α)
  | [], k, v => [(k, v)]
  | p :: m, k, v => if p.1 == k then (k, v) :: m else p :: aset m k v

/-- `m.setdefault(k, [])` for the flagged-prompts grouping: insert an empty
list at `k` when absent, keep the stored list otherwise. -/
def setdefaultKey {α : Type} (m : List (String × List α)) (k : String) :
    List (String × List α) :=
  match aget m k with
  | some _ => m
  | none => m ++ [(k, [])]

/-- `d.update(c)`: set every key of `c` in `d`, in order. -/
def dupdate (d c : Rec) : Rec :=
  c.foldl (fun acc p => aset acc p.1 p.2) d

/-! ## `transform_customers` (etl_script.py lines 172–190) -/

/-- `f"{c.get('first_name', '')} {c.get('last_name', '')}".strip()`. -/
def composedName (c : Rec) : String :=
  pyStrip (((aget c "first_name").getD "") ++ " " ++ ((aget c "last_name").getD ""))

/-- `... or c.get('company_name', '')`: the composed name when truthy,
otherwise the company name. -/
def derivedName (c : Rec) : String :=
  if composedName c ≠ "" then composedName c else (aget c "company_name").getD ""

/-- The default dict passed to `customers.setdefault(key, {...})`. -/
def baseCustomer (key : String) (c : Rec) : Rec :=
  [("name", key),
   ("first_name", (aget c "first_name").getD ""),
   ("last_name", (aget c "last_name").getD ""),
   ("company_name", (aget c "company_name").getD ""),
   ("customer_type", (aget c "customer_type").getD ""),
   ("subscription_type", (aget c "subscription_type").getD ""),
   ("email", (aget c "email").getD ""),
   ("phone_number", (aget c "phone_number").getD ""),
   ("dob", (aget c "dob").getD ""),
   ("sex", (aget c "sex").getD "")]

/-- One iteration of the loop body of `transform_customers`:
skip when the derived name is falsy, otherwise
`customers.setdefault(key, {...}).update(c)`. -/
def custStep (acc : List (String × Rec)) (c : Rec) : List (String × Rec) :=
  let name := derivedName c
  if name = "" then acc
  else
    let key := pyStrip name
    match aget acc key with
    | some r => aset acc key (dupdate r c)
    | none => acc ++ [(key, dupdate (baseCustomer key c) c)]

/-- `transform_customers(csv_data, json_data)`: fold the loop body over
`csv_data + json_data` and return `list(customers.values())`. -/
def transform_customers (csv_data json_data : List Rec) : List Rec :=
  ((csv_data ++ json_data).foldl custStep []).map (fun p => p.2)

/-! ## `transform_customers_with_billing` (etl_script.py lines 192–205)

Billing records come from `extract_customers_billing`, which always builds
dicts with exactly these keys, so they are modelled as a structure. -/

structure BillingRec where
  name : String
  phone_number : String
  payment_method : String
  street : String
  city : String
  postcode : String
  card_number : String
  card_cvv : String
deriving DecidableEq

/-- `billing_map = {b['name']: b for b in billing}` followed by
`billing_map.get(n, {})`: a dict comprehension keeps the last record for a
duplicated key. -/
def billingLookup (billing : List BillingRec) (n : String) : Option BillingRec :=
  billing.reverse.find? (fun b => b.name == n)

/-- The dict literal passed to `cust.update({...})` in
`transform_customers_with_billing`: `b = billing_map.get(cust['name'], {})`,
and `b.get(field, '')` is the billing record's field or `''`. -/
def billingFields (billing : List BillingRec) (n : String) (cust : Rec) : Rec :=
  let b := billingLookup billing n
  let cphone := (aget cust "phone_number").getD ""
  [("phone_number", if cphone ≠ "" then cphone else
      (match b with | some x => x.phone_number | none => "")),
   ("payment_method", match b with | some x => x.payment_method | none => ""),
   ("street", match b with | some x => x.street | none => ""),
   ("city", match b with | some x => x.city | none => ""),
   ("postcode", match b with | some x => x.postcode | none => ""),
   ("card_number", match b with | some x => x.card_number | none => ""),
   ("card_cvv", match b with | some x => x.card_cvv | none => "")]

/-- The loop body of `transform_customers_with_billing`: `cust.update({...})`.
`cust['name']` raises `KeyError` when the key is absent. -/
def billingUpdate (billing : List BillingRec) (cust : Rec) : Except String Rec :=
  match aget cust "name" with
  | none => .error "KeyError: name"
  | some n => .ok (dupdate cust (billingFields billing n cust))

/-- `transform_customers_with_billing(basic, billing)`: update every basic
customer record in place and return the list. -/
def transform_customers_with_billing (basic : List Rec)
    (billing : List BillingRec) : Except String (List Rec) :=
  basic.mapM (billingUpdate billing)

/-! ## `transform_employees` (etl_script.py lines 207–254) -/

/-- `int(value)` for an optional string, `default` (= 0) on failure:
`safe_int` (etl_script.py lines 85–89).  Python's `int` accepts surrounding
whitespace and an optional single sign. -/
def pyInt? (s : String) : Option Int :=
  let t := (pyStrip s).data
  let (sign, digits) :=
    match t with
    | '-' :: rest => ((-1 : Int), rest)
    | '+' :: rest => ((1 : Int), rest)
    | _ => ((1 : Int), t)
  if digits ≠ [] ∧ digits.all Char.isDigit then
    some (sign * (digits.foldl (fun n ch => n * 10 + (ch.toNat - 48)) (0 : Nat) : Nat))
  else none

/-- `safe_int(value, default=0)` where `value` is `None` or a string. -/
def safe_int (v : Option String) : Int :=
  match v with
  | none => 0
  | some s => (pyInt? s).getD 0

/-- A vehicle record produced by `extract_vehicles`: always exactly these
keys (a missing XML text node, which Python would represent as `None`, is
modelled as the empty string). -/
structure VehicleRec where
  FullName : String
  RegistrationNumber : String
  Make : String
  Model : String
  Year : Int
deriving DecidableEq

/-- A salary record from `employees_salaries.json`; `str(s['employee_id'])`
is modelled as the string field `employee_id`. -/
structure SalaryRec where
  employee_id : String
  salary : Int
  pension : Int
  commute_distance : Int
deriving DecidableEq

/-- A unified employee record (`employee_info` plus the vehicle and salary
merges).  `flagged_prompts` is absent (`none`) until
`merge_flagged_prompts` sets it. -/
structure EmployeeOut where
  employee_id : String
  first_name : String
  last_name : String
  role : String
  department : String
  age : Int
  retired : Bool
  dependants : Int
  marital_status : String
  vehicle_registration : String
  vehicle_make : String
  vehicle_model : String
  vehicle_year : Int
  salary : Int
  pension : Int
  commute_distance : Int
  flagged_prompts : Option String
deriving DecidableEq

/-- `vehicle_dict = {v['FullName']: v for v in vehicle_data} if vehicle_data
else {}` followed by `vehicle_dict.get(full_name, {})` (last record wins for
a duplicated full name). -/
def vehicleLookup (vehicle_data : List VehicleRec) (n : String) : Option VehicleRec :=
  vehicle_data.reverse.find? (fun v => v.FullName == n)

/-- `salary_dict = {str(s['employee_id']): s for s in salary_data} if
salary_data else {}` followed by `salary_dict.get(employee_id, {})`. -/
def salaryLookup (salary_data : List SalaryRec) (i : String) : Option SalaryRec :=
  salary_data.reverse.find? (fun s => s.employee_id == i)

/-- `f"{emp.get('first_name', 'Unknown')} {emp.get('last_name', 'Unknown')}"`. -/
def fullNameOf (emp : Rec) : String :=
  ((aget emp "first_name").getD "Unknown") ++ " " ++ ((aget emp "last_name").getD "Unknown")

/-- The `employee_info` dict built for one employee record, including the
vehicle and salary merges. -/
def mkEmployeeInfo (vehicle_data : List VehicleRec) (salary_data : List SalaryRec)
    (emp : Rec) : EmployeeOut :=
  let vinfo := vehicleLookup vehicle_data (fullNameOf emp)
  let sinfo := salaryLookup salary_data ((aget emp "employee_id").getD "")
  { employee_id := (aget emp "employee_id").getD ""
    first_name := (aget emp "first_name").getD "Unknown"
    last_name := (aget emp "last_name").getD "Unknown"
    role := (aget emp "role").getD "Unknown"
    department := (aget emp "department").getD "Unknown"
    age := safe_int (aget emp "age")
    retired := pyLower ((aget emp "retired").getD "false") == "true"
    dependants := safe_int (aget emp "dependants")
    marital_status := (aget emp "marital_status").getD ""
    vehicle_registration := match vinfo with | some v => v.RegistrationNumber | none => ""
    vehicle_make := match vinfo with | some v => v.Make | none => ""
    vehicle_model := match vinfo with | some v => v.Model | none => ""
    vehicle_year := match vinfo with | some v => v.Year | none => 0
    salary := match sinfo with | some s => s.salary | none => 0
    pension := match sinfo with | some s => s.pension | none => 0
    commute_distance := match sinfo with | some s => s.commute_distance | none => 0
    flagged_prompts := none }

/-- `transform_employees(employee_csv, vehicle_data, salary_data)`: the first
component is `unified_employees`; the second collects the records for which
`print(f"Skipping employee with missing ID: {emp}")` runs. -/
def transform_employees (employee_csv : List Rec) (vehicle_data : List VehicleRec)
    (salary_data : List SalaryRec) : List EmployeeOut × List Rec :=
  match employee_csv with
  | [] => ([], [])
  | emp :: rest =>
    let r := transform_employees rest vehicle_data salary_data
    if (aget emp "employee_id").getD "" = "" then (r.1, emp :: r.2)
    else (mkEmployeeInfo vehicle_data salary_data emp :: r.1, r.2)

/-! ## `extract_flagged_prompts` (etl_script.py lines 153–169)

The input is the list of lines of the text file (`f.readlines()`); each is
stripped before inspection, so trailing newlines are irrelevant. -/

/-- One `{'timestamp': ..., 'prompt': ...}` entry of `by_id`. -/
structure TsEntry where
  timestamp : String
  prompt : String
deriving DecidableEq

/-- A flattened flagged-prompt record `{'employee_id': eid, **p}`. -/
structure PromptRec where
  employee_id : String
  timestamp : String
  prompt : String
deriving DecidableEq

/-- The loop state: the grouping dict `by_id` and `current_id`
(`none` models Python's initial `None`). -/
structure FPState where
  by_id : List (String × List TsEntry)
  current : Option String
deriving DecidableEq

/-- Truthiness of `current_id`: `None` and `""` are falsy. -/
def truthyId : Option String → Bool
  | none => false
  | some s => s != ""

/-- `line.split(":", 1)[1].strip()` applied to an already stripped line. -/
def parsedVal (t : String) : String := pyStrip (afterColon t)

/-- One iteration of the line loop.  `by_id[current_id]` and
`by_id[current_id][-1]` are direct indexings and can raise. -/
def fpStep (st : FPState) (line : String) : Except String FPState :=
  let t := pyStrip line
  if pyStartsWith t "Employee ID:" then
    let v := parsedVal t
    .ok ⟨setdefaultKey st.by_id v, some v⟩
  else if pyStartsWith t "Timestamp:" && truthyId st.current then
    match st.current with
    | none => .error "unreachable: truthy current"
    | some id =>
      match aget st.by_id id with
      | none => .error "KeyError"
      | some items => .ok ⟨aset st.by_id id (items ++ [⟨parsedVal t, ""⟩]), st.current⟩
  else if pyStartsWith t "Prompt:" && truthyId st.current then
    match st.current with
    | none => .error "unreachable: truthy current"
    | some id =>
      match aget st.by_id id with
      | none => .error "KeyError"
      | some items =>
        match items.getLast? with
        | none => .error "IndexError: list index out of range"
        | some last =>
          .ok ⟨aset st.by_id id (items.dropLast ++ [{ last with prompt := parsedVal t }]),
               st.current⟩
  else .ok st

/-- `extract_flagged_prompts(path)` on the given lines: run the loop, then
flatten `by_id` into `prompts` in key-insertion order. -/
def extract_flagged_prompts (lines : List String) : Except String (List PromptRec) := do
  let st ← lines.foldlM fpStep ⟨[], none⟩
  pure ((st.by_id.map (fun p => p.2.map
    (fun q => PromptRec.mk p.1 q.timestamp q.prompt))).flatten)

/-- Classification of a line as the loop sees it: the branch for
`"Employee ID:"` is checked first. -/
def lineEid (s : String) : Bool := pyStartsWith (pyStrip s) "Employee ID:"

/-- A line that reaches and passes the `"Timestamp:"` test. -/
def lineTs (s : String) : Bool := !lineEid s && pyStartsWith (pyStrip s) "Timestamp:"

/-- A line that reaches and passes the `"Prompt:"` test. -/
def linePrompt (s : String) : Bool :=
  !lineEid s && !pyStartsWith (pyStrip s) "Timestamp:" && pyStartsWith (pyStrip s) "Prompt:"

/-- The parsed id of an `Employee ID:` line. -/
def eidValOf (line : String) : String := parsedVal (pyStrip line)

/-- The value `current_id` holds after a list of lines has been processed:
the parsed value of the last `Employee ID:` line, if any. -/
def lastEidVal (l : List String) : Option String :=
  (l.reverse.find? lineEid).map eidValOf

/-- Some `Timestamp:` line occurs with no `Employee ID:` line after it. -/
def tsAfterEids (l : List String) : Prop :=
  ∃ j < l.length, lineTs (l.getD j "") = true ∧
    ∀ k < l.length, j < k → lineEid (l.getD k "") = false

/-- The precondition of claim C10: every `Prompt:` line that follows some
`Employee ID:` line is preceded by a `Timestamp:` line lying after the most
recent `Employee ID:` line. -/
def fpPre (lines : List String) : Prop :=
  ∀ i < lines.length, linePrompt (lines.getD i "") = true →
    (∃ m < i, lineEid (lines.getD m "") = true) →
    ∃ j < i, lineTs (lines.getD j "") = true ∧
      ∀ k < i, j < k → lineEid (lines.getD k "") = false

/-- How many timestamp lines are accepted (appended to `by_id`) when the
lines are processed starting from a given `current_id`. -/
def acceptedCount : Option String → List String → Nat
  | _, [] => 0
  | cur, line :: rest =>
    let t := pyStrip line
    if pyStartsWith t "Employee ID:" then acceptedCount (some (parsedVal t)) rest
    else if pyStartsWith t "Timestamp:" && truthyId cur then
      1 + acceptedCount cur rest
    else acceptedCount cur rest

/-- Total number of entries stored in `by_id`. -/
def totalItems (st : FPState) : Nat :=
  (st.by_id.map (fun p => p.2.length)).sum

/-- How many timestamp lines are accepted while the current id is exactly
`i` — the records produced for employee `i`. -/
def acceptedCountFor : Option String → String → List String → Nat
  | _, _, [] => 0
  | cur, i, line :: rest =>
    let t := pyStrip line
    if pyStartsWith t "Employee ID:" then acceptedCountFor (some (parsedVal t)) i rest
    else if pyStartsWith t "Timestamp:" && truthyId cur then
      (if cur = some i then 1 else 0) + acceptedCountFor cur i rest
    else acceptedCountFor cur i rest

/-- The number of entries stored in `by_id` under key `i`. -/
def idItems (st : FPState) (i : String) : Nat :=
  ((aget st.by_id i).getD []).length

/-- The loop invariant tying the state to the processed prefix `l₁`. -/
def fpInv (l₁ : List String) (st : FPState) : Prop :=
  (st.by_id.map Prod.fst).Nodup ∧
  st.current = lastEidVal l₁ ∧
  (∀ id, st.current = some id → id ≠ "" →
    ∃ items, aget st.by_id id = some items ∧ (tsAfterEids l₁ → items ≠ [])) ∧
  (∀ p ∈ st.by_id, p.2 ≠ [] → p.1 ≠ "")

/-! ## `merge_flagged_prompts` (etl_script.py lines 256–262) -/

/-- JSON string escaping as performed by `json.dumps` (the `\uXXXX` escapes
for other control characters and non-ASCII text are not modelled; the claims
only depend on the serialization being a string, and on `[]`). -/
def jsonEscapeChar (ch : Char) : String :=
  if ch = '"' then "\\\"" else if ch = '\\' then "\\\\"
  else if ch = '\n' then "\\n" else if ch = '\t' then "\\t"
  else if ch = '\r' then "\\r" else String.singleton ch

/-- A JSON string literal. -/
def jsonStr (s : String) : String :=
  "\"" ++ String.join (s.data.map jsonEscapeChar) ++ "\""

/-- `json.dumps` of one flagged-prompt dict (insertion order
`employee_id`, `timestamp`, `prompt`; default separators). -/
def jsonDumpPrompt (p : PromptRec) : String :=
  "\x7b\"employee_id\": " ++ jsonStr p.employee_id ++
  ", \"timestamp\": " ++ jsonStr p.timestamp ++
  ", \"prompt\": " ++ jsonStr p.prompt ++ "\x7d"

/-- `json.dumps` of a list of flagged-prompt dicts. -/
def jsonDumps (ps : List PromptRec) : String :=
  "[" ++ String.intercalate ", " (ps.map jsonDumpPrompt) ++ "]"

/-- `by_id.setdefault(p['employee_id'], []).append(p)` for one prompt. -/
def groupStep (m : List (String × List PromptRec)) (p : PromptRec) :
    List (String × List PromptRec) :=
  match aget m p.employee_id with
  | some l => aset m p.employee_id (l ++ [p])
  | none => m ++ [(p.employee_id, [p])]

/-- `by_id.setdefault(p['employee_id'], []).append(p)` over all prompts. -/
def groupPrompts (prompts : List PromptRec) : List (String × List PromptRec) :=
  prompts.foldl groupStep []

/-- `merge_flagged_prompts(employees, prompts)`: set
`emp['flagged_prompts'] = json.dumps(by_id.get(emp['employee_id'], []))`
on every employee. -/
def merge_flagged_prompts (employees : List EmployeeOut) (prompts : List PromptRec) :
    List EmployeeOut :=
  employees.map (fun emp =>
    { emp with
      flagged_prompts := some (jsonDumps ((aget (groupPrompts prompts) emp.employee_id).getD [])) })

/-! ## `extract_file` (etl_script.py lines 91–104) -/

/-- The value returned by `extract_file`.  For a present file the parsed
payload (`csv.DictReader`, `json.load`, `ET.parse(...).getroot()`,
`f.readlines()`) is represented by the raw text tagged with the format; the
claims about `extract_file` only concern the missing-file branch.
`pyNone` is Python's `None`: returned for a missing XML file, and by the
fall-through when no format branch matches. -/
inductive ExtractOut where
  | parsed (file_type : String) (raw : String)
  | emptyList
  | pyNone
deriving DecidableEq

/-- `extract_file(file_path, file_type)` over a model filesystem `fs`
(path ↦ contents).  The second component is the list of warnings logged. -/
def extract_file (fs : List (String × String)) (file_path : String)
    (file_type : String) : ExtractOut × List String :=
  match aget fs file_path with
  | some content =>
    (if file_type == "csv" then .parsed "csv" content
     else if file_type == "json" then .parsed "json" content
     else if file_type == "xml" then .parsed "xml" content
     else if file_type == "txt" then .parsed "txt" content
     else .pyNone, [])
  | none =>
    ((if file_type == "xml" then .pyNone else .emptyList),
     ["Missing file: " ++ file_path])

/-! ## The loaders (etl_script.py lines 264–294)

The records handed to `load_customers` are the merged customer dicts, whose
key set is fixed by `transform_customers` / `transform_customers_with_billing`
and matches the `Customer` entity's attributes, so they are modelled as a
structure (a `None` email is modelled as `""`; both are falsy in
`c.get('email')`).  A database table is a list of rows; the synthetic `id`
field models row identity (`Customer`'s auto primary key).  `Entity.get`
raises `MultipleObjectsFoundError` when more than one row matches, hence
`Except`. -/

/-- A merged customer record as passed to `load_customers`. -/
structure CustomerRec where
  name : String
  first_name : String
  last_name : String
  company_name : String
  customer_type : String
  subscription_type : String
  email : String
  phone_number : String
  dob : String
  sex : String
  payment_method : String
  street : String
  city : String
  postcode : String
  card_number : String
  card_cvv : String
deriving DecidableEq

/-- A table row: a synthetic row id plus the record data. -/
structure GRow (ρ : Type) where
  id : Nat
  data : ρ
deriving DecidableEq

/-- A table: rows plus the next fresh row id. -/
structure GDB (ρ : Type) where
  rows : List (GRow ρ)
  nextId : Nat
deriving DecidableEq

/-- The empty table. -/
def emptyDB {ρ : Type} : GDB ρ := ⟨[], 1⟩

/-- `Customer.get(email=e)`: `None` when no row matches, the row when
exactly one does, `MultipleObjectsFoundError` otherwise. -/
def customerGet (db : GDB CustomerRec) (e : String) :
    Except String (Option (GRow CustomerRec)) :=
  match db.rows.filter (fun r => r.data.email == e) with
  | [] => .ok none
  | [r] => .ok (some r)
  | _ => .error "MultipleObjectsFoundError"

/-- One iteration of the `load_customers` loop:
skip when `c['name']` is falsy; match by email only when `c['email']` is
truthy; `existing.set(**c)` overwrites every field; otherwise
`Customer(**c)` inserts a fresh row. -/
def loadCustomerStep (db : GDB CustomerRec) (c : CustomerRec) :
    Except String (GDB CustomerRec) :=
  if c.name = "" then .ok db
  else do
    let existing ← if c.email ≠ "" then customerGet db c.email else pure none
    match existing with
    | some r =>
      pure ⟨db.rows.map (fun x => if x.id = r.id then ⟨x.id, c⟩ else x), db.nextId⟩
    | none => pure ⟨db.rows ++ [⟨db.nextId, c⟩], db.nextId + 1⟩

/-- `load_customers(customers)`. -/
def load_customers (db : GDB CustomerRec) (cs : List CustomerRec) :
    Except String (GDB CustomerRec) :=
  cs.foldlM loadCustomerStep db

/-- `Employee.get(employee_id=...)` (the primary key). -/
def employeeGet (db : GDB EmployeeOut) (i : String) :
    Except String (Option (GRow EmployeeOut)) :=
  match db.rows.filter (fun r => r.data.employee_id == i) with
  | [] => .ok none
  | [r] => .ok (some r)
  | _ => .error "MultipleObjectsFoundError"

/-- One iteration of the `load_employees` loop: skip when
`e.get('employee_id')` is falsy; `setattr` on every field overwrites the
whole record; otherwise `Employee(**e)` inserts. -/
def loadEmployeeStep (db : GDB EmployeeOut) (e : EmployeeOut) :
    Except String (GDB EmployeeOut) :=
  if e.employee_id = "" then .ok db
  else do
    let existing ← employeeGet db e.employee_id
    match existing with
    | some r =>
      pure ⟨db.rows.map (fun x => if x.id = r.id then ⟨x.id, e⟩ else x), db.nextId⟩
    | none => pure ⟨db.rows ++ [⟨db.nextId, e⟩], db.nextId + 1⟩

/-- `load_employees(employees)`. -/
def load_employees (db : GDB EmployeeOut) (es : List EmployeeOut) :
    Except String (GDB EmployeeOut) :=
  es.foldlM loadEmployeeStep db

/-! ## The generic upsert machine

`load_customers` (on records whose email is non-empty) and `load_employees`
are both instances of the same insert-or-update loop, parameterised by the
natural-key function and by the skip test.  The idempotence argument is made
once, about this machine. -/

/-- One upsert step: skip, insert when no row matches the key, update the
row when exactly one does, raise otherwise. -/
def genStep {ρ : Type} (key : ρ → String) (skip : ρ → Bool) (db : GDB ρ) (c : ρ) :
    Except String (GDB ρ) :=
  if skip c then .ok db
  else match db.rows.filter (fun r => key r.data == key c) with
  | [] => .ok ⟨db.rows ++ [⟨db.nextId, c⟩], db.nextId + 1⟩
  | [r] => .ok ⟨db.rows.map (fun x => if x.id = r.id then ⟨x.id, c⟩ else x), db.nextId⟩
  | _ => .error "MultipleObjectsFoundError"

/-- The upsert loop. -/
def genLoad {ρ : Type} (key : ρ → String) (skip : ρ → Bool) (db : GDB ρ)
    (cs : List ρ) : Except String (GDB ρ) :=
  cs.foldlM (genStep key skip) db

/-- Well-formedness of a table: pairwise distinct keys and row ids, and all
row ids below `nextId`. -/
def InvDB {ρ : Type} (key : ρ → String) (db : GDB ρ) : Prop :=
  db.rows.Pairwise (fun a b => key a.data ≠ key b.data ∧ a.id ≠ b.id) ∧
  ∀ r ∈ db.rows, r.id < db.nextId

/-- The last non-skipped record of `cs` whose key is `k`. -/
def lastW {ρ : Type} (key : ρ → String) (skip : ρ → Bool) (cs : List ρ)
    (k : String) : Option ρ :=
  (cs.filter (fun c => !skip c && (key c == k))).getLast?

/-- Overwrite each row's data with the last input record carrying its key. -/
def massUpd {ρ : Type} (key : ρ → String) (skip : ρ → Bool) (db : GDB ρ)
    (cs : List ρ) : GDB ρ :=
  ⟨db.rows.map (fun r =>
      match lastW key skip cs (key r.data) with
      | some c => ⟨r.id, c⟩
      | none => r),
   db.nextId⟩

/-- Some row of `db` carries key `k`. -/
def hasKey {ρ : Type} (key : ρ → String) (db : GDB ρ) (k : String) : Prop :=
  ∃ r ∈ db.rows, key r.data = k

/-- The customer natural key: the email. -/
def custKey (c : CustomerRec) : String := c.email

/-- The customer skip test: `if not c.get('name'): continue`. -/
def custSkip (c : CustomerRec) : Bool := c.name == ""

/-- The employee natural key: the primary key `employee_id`. -/
def empKey (e : EmployeeOut) : String := e.employee_id

/-- The employee skip test: `if not e.get('employee_id'): continue`. -/
def empSkip (e : EmployeeOut) : Bool := e.employee_id == ""

/-! ## Concrete records used by witnesses and counterexamples -/

/-- A customer record whose fields are all empty. -/
def blankCustomer : CustomerRec :=
  ⟨"", "", "", "", "", "", "", "", "", "", "", "", "", "", "", ""⟩

/-- A named customer with an email address. -/
def adaCustomer : CustomerRec :=
  { blankCustomer with name := "Ada Lovelace", first_name := "Ada",
                       last_name := "Lovelace", email := "ada@example.com" }

/-- A named customer without an email address. -/
def noEmailCustomer : CustomerRec :=
  { blankCustomer with name := "Ada Lovelace", first_name := "Ada",
                       last_name := "Lovelace" }

/-- A sample unified employee record. -/
def sampleEmployee : EmployeeOut :=
  ⟨"E1", "Jo", "Ann", "Engineer", "IT", 30, false, 0, "single",
   "", "", "", 0, 0, 0, 0, none⟩

/-! # Lemmas about the dict model -/

theorem aget_nil {α : Type} (k : String) : aget ([] : List (String × α)) k = none := rfl

theorem aget_cons {α : Type} (p : String × α) (m : List (String × α)) (k : String) :
    aget (p :: m) k = if p.1 = k then some p.2 else aget m k := by
  by_cases h : p.1 = k <;> simp [aget, h]

theorem aget_aset_self {α : Type} (m : List (String × α)) (k : String) (v : α) :
    aget (aset m k v) k = some v := by
  induction m with
  | nil => simp [aset, aget]
  | cons p m ih =>
    by_cases h : p.1 = k
    · simp [aset, aget, h]
    · simp [aset, aget, h, ih]

theorem aget_aset_ne {α : Type} (m : List (String × α)) (k k' : String) (v : α)
    (h : k' ≠ k) : aget (aset m k v) k' = aget m k' := by
  have h' : ¬ k = k' := Ne.symm h
  induction m with
  | nil => simp [aset, aget, h']
  | cons p m ih =>
    by_cases hp : p.1 = k
    · simp [aset, aget, hp, h']
    · simp [aset, aget, hp, ih]

theorem aget_eq_none_iff {α : Type} (m : List (String × α)) (k : String) :
    aget m k = none ↔ ∀ p ∈ m, p.1 ≠ k := by
  induction m with
  | nil => simp [aget]
  | cons p m ih =>
    by_cases hp : p.1 = k
    · simp [aget, hp]
    · simp [aget, hp, ih]

theorem aget_append {α : Type} (m m' : List (String × α)) (k : String) :
    aget (m ++ m') k = ((aget m k).rec (aget m' k) (fun v => some v) : Option α) := by
  induction m with
  | nil => rfl
  | cons p m ih =>
    by_cases hp : p.1 = k <;> simp [aget, hp, ih]

theorem dupdate_nil (d : Rec) : dupdate d [] = d := rfl

theorem dupdate_cons (d : Rec) (p : String × String) (c : Rec) :
    dupdate d (p :: c) = dupdate (aset d p.1 p.2) c := rfl

theorem aget_dupdate_of_none (d c : Rec) (k : String) (h : aget c k = none) :
    aget (dupdate d c) k = aget d k := by
  induction c generalizing d with
  | nil => rfl
  | cons p c ih =>
    have h1 : ¬ p.1 = k := by
      intro e
      simp [aget, e] at h
    have h2 : aget c k = none := by
      simpa [aget, h1] using h
    rw [dupdate_cons, ih _ h2, aget_aset_ne _ _ _ _ (fun e => h1 e.symm)]

theorem aget_dupdate_of_some (d c : Rec) (k : String) (v : String)
    (hnd : (c.map Prod.fst).Nodup) (h : aget c k = some v) :
    aget (dupdate d c) k = some v := by
  induction c generalizing d with
  | nil => simp [aget] at h
  | cons p c ih =>
    rw [dupdate_cons]
    rw [List.map_cons] at hnd
    obtain ⟨hnotin, hnd'⟩ := List.nodup_cons.mp hnd
    by_cases hp : p.1 = k
    · have hv : p.2 = v := by simpa [aget, hp] using h
      have hk : aget c k = none := by
        rw [aget_eq_none_iff]
        intro q hq e
        exact hnotin (by rw [hp, ← e]; exact List.mem_map_of_mem Prod.fst hq)
      rw [aget_dupdate_of_none _ _ _ hk, ← hp, ← hv, aget_aset_self]
    · have h2 : aget c k = some v := by simpa [aget, hp] using h
      exact ih (aset d p.1 p.2) hnd' h2

/-! # Lemmas about `transform_customers` and `transform_employees` -/

theorem custStep_skip (acc : List (String × Rec)) (c : Rec) (h : derivedName c = "") :
    custStep acc c = acc := by
  simp [custStep, h]

theorem foldl_custStep_all_skip (l : List Rec) (acc : List (String × Rec))
    (h : ∀ c ∈ l, derivedName c = "") : l.foldl custStep acc = acc := by
  induction l generalizing acc with
  | nil => rfl
  | cons c l ih =>
    rw [List.foldl_cons, custStep_skip _ _ (h c (List.mem_cons_self c l))]
    exact ih acc (fun x hx => h x (List.mem_cons_of_mem c hx))

theorem transform_employees_cons (p : Rec) (l : List Rec) (vs : List VehicleRec)
    (ss : List SalaryRec) :
    transform_employees (p :: l) vs ss =
      (let r := transform_employees l vs ss
       if (aget p "employee_id").getD "" = "" then (r.1, p :: r.2)
       else (mkEmployeeInfo vs ss p :: r.1, r.2)) := rfl

theorem transform_employees_mem_cons (p : Rec) (l : List Rec) (vs : List VehicleRec)
    (ss : List SalaryRec) (r : EmployeeOut)
    (h : r ∈ (transform_employees l vs ss).1) :
    r ∈ (transform_employees (p :: l) vs ss).1 := by
  rw [transform_employees_cons]
  by_cases hp : (aget p "employee_id").getD "" = ""
  · simpa [hp] using h
  · simp only [hp, if_false]
    exact List.mem_cons_of_mem _ h

/-- **Claim C2** (confirmed).  For a CSV customer record and a JSON customer
record with the same (non-empty) derived name key, `transform_customers`
produces exactly one output record, which contains the fields of both
records, the JSON record winning wherever both define a field. -/
theorem c2_claim (a b : Rec)
    (hna : (a.map Prod.fst).Nodup) (hnb : (b.map Prod.fst).Nodup)
    (ha : derivedName a ≠ "") (hb : derivedName b ≠ "")
    (hkey : pyStrip (derivedName a) = pyStrip (derivedName b)) :
    ∃ r, transform_customers [a] [b] = [r] ∧
      (∀ k v, aget b k = some v → aget r k = some v) ∧
      (∀ k v, aget b k = none → aget a k = some v → aget r k = some v) := by
  set ka := pyStrip (derivedName a) with hka
  refine ⟨dupdate (dupdate (baseCustomer ka a) a) b, ?_, ?_, ?_⟩
  · have e1 : custStep [] a = [(ka, dupdate (baseCustomer ka a) a)] := by
      simp [custStep, ha, aget, hka]
    have e2 : custStep [(ka, dupdate (baseCustomer ka a) a)] b
        = [(ka, dupdate (dupdate (baseCustomer ka a) a) b)] := by
      simp [custStep, hb, aget, aset, hka, ← hkey]
    show (([a] ++ [b]).foldl custStep []).map (fun p => p.2) = _
    simp [e1, e2]
  · intro k v h
    exact aget_dupdate_of_some _ _ _ _ hnb h
  · intro k v hnone hsome
    rw [aget_dupdate_of_none _ _ _ hnone]
    exact aget_dupdate_of_some _ _ _ _ hna hsome

/-- Witness for C2 at concrete records. -/
theorem c2_witness :
    (([("first_name", "Jo"), ("email", "jo@a")] : Rec).map Prod.fst).Nodup ∧
    (([("first_name", "Jo"), ("phone_number", "123")] : Rec).map Prod.fst).Nodup ∧
    derivedName [("first_name", "Jo"), ("email", "jo@a")] ≠ "" ∧
    derivedName [("first_name", "Jo"), ("phone_number", "123")] ≠ "" ∧
    pyStrip (derivedName [("first_name", "Jo"), ("email", "jo@a")]) =
      pyStrip (derivedName [("first_name", "Jo"), ("phone_number", "123")]) ∧
    ∃ r, transform_customers [[("first_name", "Jo"), ("email", "jo@a")]]
        [[("first_name", "Jo"), ("phone_number", "123")]] = [r] ∧
      (∀ k v, aget [("first_name", "Jo"), ("phone_number", "123")] k = some v →
        aget r k = some v) ∧
      (∀ k v, aget [("first_name", "Jo"), ("phone_number", "123")] k = none →
        aget [("first_name", "Jo"), ("email", "jo@a")] k = some v → aget r k = some v) :=
  ⟨by decide, by decide, by decide, by decide, by decide,
   c2_claim _ _ (by decide) (by decide) (by decide) (by decide) (by decide)⟩

/-- **Claim C3, counterexample.**  The claim says every record in the
customer transform output has a non-empty name; but a record whose composed
name is empty and whose company name is whitespace-only passes the
truthiness filter and is emitted with an empty name. -/
theorem c3_counterexample :
    ∃ r ∈ transform_customers [[("company_name", " ")]] [], aget r "name" = some "" := by
  decide

/-- **Claim C3** (amended).  Every record in the employee transform output
has a non-empty `employee_id`, and every employee record failing this is
collected for the skip message; customer records whose derived name is
falsy are dropped (silently). -/
theorem c3_amended_claim :
    (∀ (ecsv : List Rec) (vs : List VehicleRec) (ss : List SalaryRec) r,
      r ∈ (transform_employees ecsv vs ss).1 → r.employee_id ≠ "") ∧
    (∀ (ecsv : List Rec) (vs : List VehicleRec) (ss : List SalaryRec) emp,
      emp ∈ ecsv → (aget emp "employee_id").getD "" = "" →
      emp ∈ (transform_employees ecsv vs ss).2) ∧
    (∀ csv json : List Rec, (∀ c ∈ csv ++ json, derivedName c = "") →
      transform_customers csv json = []) := by
  refine ⟨?_, ?_, ?_⟩
  · intro ecsv vs ss r h
    induction ecsv with
    | nil => exact absurd h (List.not_mem_nil r)
    | cons p l ih =>
      rw [transform_employees_cons] at h
      by_cases hp : (aget p "employee_id").getD "" = ""
      · exact ih (by simpa [hp] using h)
      · simp only [hp, if_false] at h
        rcases List.mem_cons.mp h with h | h
        · subst h
          simpa [mkEmployeeInfo] using hp
        · exact ih h
  · intro ecsv vs ss emp hmem hskip
    induction ecsv with
    | nil => exact absurd hmem (List.not_mem_nil emp)
    | cons p l ih =>
      rw [transform_employees_cons]
      rcases List.mem_cons.mp hmem with h | h
      · subst h
        simp [hskip]
      · by_cases hp : (aget p "employee_id").getD "" = ""
        · simpa [hp] using List.mem_cons_of_mem p (ih h)
        · simpa [hp] using ih h
  · intro csv json h
    unfold transform_customers
    rw [foldl_custStep_all_skip _ _ h]
    rfl

/-- Witness for the employee half of C3. -/
theorem c3_witness :
    mkEmployeeInfo [] [] [("employee_id", "E1")] ∈
      (transform_employees [[("employee_id", "E1")]] [] []).1 ∧
    (mkEmployeeInfo [] [] [("employee_id", "E1")]).employee_id ≠ "" :=
  ⟨by decide, c3_amended_claim.1 [[("employee_id", "E1")]] [] [] _ (by decide)⟩

/-- **Claim C4, counterexample.**  A record whose composed name is empty and
whose company name is whitespace-only is *not* excluded from the output. -/
theorem c4_counterexample :
    composedName [("company_name", " ")] = "" ∧
    pyStrip ((aget [("company_name", " ")] "company_name").getD "") = "" ∧
    transform_customers [[("company_name", " ")]] [] ≠ [] := by
  decide

/-- **Claim C4** (amended).  A customer record whose composed name is empty
and whose company name is absent or equal to the empty string is excluded
from the output of `transform_customers`. -/
theorem c4_amended_claim (l₁ l₂ json : List Rec) (c : Rec)
    (h1 : composedName c = "") (h2 : (aget c "company_name").getD "" = "") :
    transform_customers (l₁ ++ c :: l₂) json = transform_customers (l₁ ++ l₂) json := by
  have hd : derivedName c = "" := by simp [derivedName, h1, h2]
  unfold transform_customers
  have e : (l₁ ++ c :: l₂) ++ json = l₁ ++ c :: (l₂ ++ json) := by simp
  have e' : (l₁ ++ l₂) ++ json = l₁ ++ (l₂ ++ json) := by simp
  rw [e, e', List.foldl_append, List.foldl_append, List.foldl_cons,
    custStep_skip _ _ hd]

/-- Witness for C4. -/
theorem c4_witness :
    composedName [("email", "x@y")] = "" ∧
    (aget [("email", "x@y")] "company_name").getD "" = "" ∧
    transform_customers ([[("first_name", "Jo")]] ++ [("email", "x@y")] :: []) [] =
      transform_customers ([[("first_name", "Jo")]] ++ []) [] :=
  ⟨by decide, by decide,
   c4_amended_claim [[("first_name", "Jo")]] [] [] _ (by decide) (by decide)⟩

/-- **Claim C5** (confirmed).  An employee CSV record with a non-empty id,
whose full name matches no vehicle record and whose id matches no salary
record, still yields an output record, with empty-string vehicle fields and
zero vehicle year, salary, pension and commute distance. -/
theorem c5_claim (pre post : List Rec) (vs : List VehicleRec) (ss : List SalaryRec)
    (emp : Rec) (hid : (aget emp "employee_id").getD "" ≠ "")
    (hv : ∀ v ∈ vs, v.FullName ≠ fullNameOf emp)
    (hs : ∀ s ∈ ss, s.employee_id ≠ (aget emp "employee_id").getD "") :
    mkEmployeeInfo vs ss emp ∈ (transform_employees (pre ++ emp :: post) vs ss).1 ∧
    (mkEmployeeInfo vs ss emp).vehicle_registration = "" ∧
    (mkEmployeeInfo vs ss emp).vehicle_make = "" ∧
    (mkEmployeeInfo vs ss emp).vehicle_model = "" ∧
    (mkEmployeeInfo vs ss emp).vehicle_year = 0 ∧
    (mkEmployeeInfo vs ss emp).salary = 0 ∧
    (mkEmployeeInfo vs ss emp).pension = 0 ∧
    (mkEmployeeInfo vs ss emp).commute_distance = 0 := by
  have hlv : vehicleLookup vs (fullNameOf emp) = none := by
    apply List.find?_eq_none.mpr
    intro v hvmem
    simp only [beq_eq_false_iff_ne, ne_eq, beq_iff_eq]
    exact hv v (List.mem_reverse.mp hvmem)
  have hls : salaryLookup ss ((aget emp "employee_id").getD "") = none := by
    apply List.find?_eq_none.mpr
    intro s hsmem
    simp only [beq_eq_false_iff_ne, ne_eq, beq_iff_eq]
    exact hs s (List.mem_reverse.mp hsmem)
  refine ⟨?_, by simp [mkEmployeeInfo, hlv, hls], by simp [mkEmployeeInfo, hlv, hls],
    by simp [mkEmployeeInfo, hlv, hls], by simp [mkEmployeeInfo, hlv, hls],
    by simp [mkEmployeeInfo, hlv, hls], by simp [mkEmployeeInfo, hlv, hls],
    by simp [mkEmployeeInfo, hlv, hls]⟩
  induction pre with
  | nil =>
    rw [List.nil_append, transform_employees_cons]
    simp [hid]
  | cons p pre ih =>
    rw [List.cons_append]
    exact transform_employees_mem_cons _ _ _ _ _ ih

/-- Witness for C5. -/
theorem c5_witness :
    ((aget [("employee_id", "E1")] "employee_id").getD "" ≠ "") ∧
    mkEmployeeInfo [] [] [("employee_id", "E1")] ∈
      (transform_employees ([] ++ [("employee_id", "E1")] :: []) [] []).1 ∧
    (mkEmployeeInfo [] [] [("employee_id", "E1")]).salary = 0 := by
  have h := c5_claim [] [] [] [] [("employee_id", "E1")] (by decide) (by simp) (by simp)
  exact ⟨by decide, h.1, h.2.2.2.2.2.1⟩

/-! # Claims C8, C9, C6, C7 -/

theorem aget_billingFields_pm (billing : List BillingRec) (n : String) (cust : Rec) :
    aget (billingFields billing n cust) "payment_method" =
      some (match billingLookup billing n with | some x => x.payment_method | none => "") := rfl

theorem aget_billingFields_street (billing : List BillingRec) (n : String) (cust : Rec) :
    aget (billingFields billing n cust) "street" =
      some (match billingLookup billing n with | some x => x.street | none => "") := rfl

theorem aget_billingFields_city (billing : List BillingRec) (n : String) (cust : Rec) :
    aget (billingFields billing n cust) "city" =
      some (match billingLookup billing n with | some x => x.city | none => "") := rfl

theorem aget_billingFields_postcode (billing : List BillingRec) (n : String) (cust : Rec) :
    aget (billingFields billing n cust) "postcode" =
      some (match billingLookup billing n with | some x => x.postcode | none => "") := rfl

theorem aget_billingFields_cardno (billing : List BillingRec) (n : String) (cust : Rec) :
    aget (billingFields billing n cust) "card_number" =
      some (match billingLookup billing n with | some x => x.card_number | none => "") := rfl

theorem aget_billingFields_cvv (billing : List BillingRec) (n : String) (cust : Rec) :
    aget (billingFields billing n cust) "card_cvv" =
      some (match billingLookup billing n with | some x => x.card_cvv | none => "") := rfl

theorem billingFields_keys_nodup (billing : List BillingRec) (n : String) (cust : Rec) :
    ((billingFields billing n cust).map Prod.fst).Nodup := by
  show (["phone_number", "payment_method", "street", "city", "postcode",
         "card_number", "card_cvv"] : List String).Nodup
  decide

/-- **Claim C8** (confirmed).  `transform_customers_with_billing` attaches
the billing fields of the billing record whose `name` equals the customer's
`name` exactly (the last such record, per the dict comprehension), and
attaches empty strings when no billing name matches. -/
theorem c8_claim (billing : List BillingRec) (cust : Rec) (n : String)
    (hn : aget cust "name" = some n) :
    transform_customers_with_billing [cust] billing =
      .ok [dupdate cust (billingFields billing n cust)] ∧
    ((∃ b ∈ billing, b.name = n) →
      ∃ b, billingLookup billing n = some b ∧ b.name = n) ∧
    (∀ b, billingLookup billing n = some b →
      aget (dupdate cust (billingFields billing n cust)) "payment_method" = some b.payment_method ∧
      aget (dupdate cust (billingFields billing n cust)) "street" = some b.street ∧
      aget (dupdate cust (billingFields billing n cust)) "city" = some b.city ∧
      aget (dupdate cust (billingFields billing n cust)) "postcode" = some b.postcode ∧
      aget (dupdate cust (billingFields billing n cust)) "card_number" = some b.card_number ∧
      aget (dupdate cust (billingFields billing n cust)) "card_cvv" = some b.card_cvv) ∧
    ((∀ b ∈ billing, b.name ≠ n) →
      aget (dupdate cust (billingFields billing n cust)) "payment_method" = some "" ∧
      aget (dupdate cust (billingFields billing n cust)) "street" = some "" ∧
      aget (dupdate cust (billingFields billing n cust)) "city" = some "" ∧
      aget (dupdate cust (billingFields billing n cust)) "postcode" = some "" ∧
      aget (dupdate cust (billingFields billing n cust)) "card_number" = some "" ∧
      aget (dupdate cust (billingFields billing n cust)) "card_cvv" = some "") := by
  have hnd := billingFields_keys_nodup billing n cust
  refine ⟨?_, ?_, ?_, ?_⟩
  · have hb : billingUpdate billing cust = .ok (dupdate cust (billingFields billing n cust)) := by
      simp [billingUpdate, hn]
    simp [transform_customers_with_billing, List.mapM, List.mapM.loop, hb]
  · intro ⟨b, hbmem, hbname⟩
    have hsome : (billing.reverse.find? (fun x => x.name == n)).isSome := by
      rw [List.find?_isSome]
      exact ⟨b, List.mem_reverse.mpr hbmem, by simp [hbname]⟩
    obtain ⟨b', hb'⟩ := Option.isSome_iff_exists.mp hsome
    refine ⟨b', hb', ?_⟩
    have := List.find?_some hb'
    simpa using this
  · intro b hb
    refine ⟨?_, ?_, ?_, ?_, ?_, ?_⟩ <;>
      [rw [aget_dupdate_of_some _ _ _ _ hnd (by rw [aget_billingFields_pm, hb])];
       rw [aget_dupdate_of_some _ _ _ _ hnd (by rw [aget_billingFields_street, hb])];
       rw [aget_dupdate_of_some _ _ _ _ hnd (by rw [aget_billingFields_city, hb])];
       rw [aget_dupdate_of_some _ _ _ _ hnd (by rw [aget_billingFields_postcode, hb])];
       rw [aget_dupdate_of_some _ _ _ _ hnd (by rw [aget_billingFields_cardno, hb])];
       rw [aget_dupdate_of_some _ _ _ _ hnd (by rw [aget_billingFields_cvv, hb])]]
  · intro hnone
    have hb : billingLookup billing n = none := by
      apply List.find?_eq_none.mpr
      intro b hbmem
      simp only [beq_eq_false_iff_ne, ne_eq, beq_iff_eq]
      exact hnone b (List.mem_reverse.mp hbmem)
    refine ⟨?_, ?_, ?_, ?_, ?_, ?_⟩ <;>
      [rw [aget_dupdate_of_some _ _ _ _ hnd (by rw [aget_billingFields_pm, hb])];
       rw [aget_dupdate_of_some _ _ _ _ hnd (by rw [aget_billingFields_street, hb])];
       rw [aget_dupdate_of_some _ _ _ _ hnd (by rw [aget_billingFields_city, hb])];
       rw [aget_dupdate_of_some _ _ _ _ hnd (by rw [aget_billingFields_postcode, hb])];
       rw [aget_dupdate_of_some _ _ _ _ hnd (by rw [aget_billingFields_cardno, hb])];
       rw [aget_dupdate_of_some _ _ _ _ hnd (by rw [aget_billingFields_cvv, hb])]]

/-- Witness for C8 at a concrete customer and billing list. -/
theorem c8_witness :
    aget [("name", "Ada")] "name" = some "Ada" ∧
    transform_customers_with_billing [[("name", "Ada")]]
        [⟨"Ada", "1", "card", "st", "ct", "pc", "42", "007"⟩] =
      .ok [dupdate [("name", "Ada")]
        (billingFields [⟨"Ada", "1", "card", "st", "ct", "pc", "42", "007"⟩] "Ada"
          [("name", "Ada")])] :=
  ⟨by decide, (c8_claim [⟨"Ada", "1", "card", "st", "ct", "pc", "42", "007"⟩]
    [("name", "Ada")] "Ada" (by decide)).1⟩

theorem aget_groupStep (m : List (String × List PromptRec)) (p : PromptRec) (i : String) :
    (aget (groupStep m p) i).getD [] =
      (aget m i).getD [] ++ (if p.employee_id = i then [p] else []) := by
  by_cases hp : p.employee_id = i
  · subst hp
    unfold groupStep
    cases h : aget m p.employee_id with
    | some l => simp [h, aget_aset_self]
    | none =>
      rw [aget_append]
      simp [h, aget]
  · unfold groupStep
    cases h : aget m p.employee_id with
    | some l => simp [aget_aset_ne _ _ _ _ (fun e => hp e.symm), hp]
    | none =>
      rw [aget_append]
      cases h' : aget m i with
      | some l => simp [h', hp]
      | none => simp [h', aget, hp]

theorem aget_groupPrompts_aux (ps : List PromptRec) (m : List (String × List PromptRec))
    (i : String) :
    (aget (ps.foldl groupStep m) i).getD [] =
      (aget m i).getD [] ++ ps.filter (fun p => p.employee_id == i) := by
  induction ps generalizing m with
  | nil => simp
  | cons p ps ih =>
    rw [List.foldl_cons, ih]
    by_cases hp : p.employee_id = i
    · simp [aget_groupStep, hp]
    · simp [aget_groupStep, hp]

theorem aget_groupPrompts (ps : List PromptRec) (i : String) :
    (aget (groupPrompts ps) i).getD [] = ps.filter (fun p => p.employee_id == i) := by
  unfold groupPrompts
  rw [aget_groupPrompts_aux]
  simp [aget]

/-- **Claim C9** (confirmed).  `merge_flagged_prompts` maps each employee to
the same record with only `flagged_prompts` changed, set to the JSON
serialization of that employee's prompts, and to `"[]"` when no prompt
carries the employee's id. -/
theorem c9_claim (emps : List EmployeeOut) (ps : List PromptRec) :
    List.Forall₂ (fun e r =>
      r = { e with
            flagged_prompts := some (jsonDumps (ps.filter (fun p => p.employee_id == e.employee_id))) })
      emps (merge_flagged_prompts emps ps) ∧
    ∀ r ∈ merge_flagged_prompts emps ps,
      (∀ p ∈ ps, p.employee_id ≠ r.employee_id) → r.flagged_prompts = some "[]" := by
  constructor
  · unfold merge_flagged_prompts
    rw [List.forall₂_map_right_iff]
    rw [List.forall₂_same]
    intro e _
    rw [aget_groupPrompts]
  · intro r hr hnone
    unfold merge_flagged_prompts at hr
    obtain ⟨e, _, he⟩ := List.mem_map.mp hr
    have hid : r.employee_id = e.employee_id := by rw [← he]
    have hfil : ps.filter (fun p => p.employee_id == e.employee_id) = [] := by
      rw [List.filter_eq_nil_iff]
      intro p hp
      simp only [beq_eq_false_iff_ne, ne_eq, beq_iff_eq]
      rw [← hid]
      exact hnone p hp
    rw [← he]
    show some (jsonDumps ((aget (groupPrompts ps) e.employee_id).getD [])) = some "[]"
    rw [aget_groupPrompts, hfil]
    rfl

/-- Witness for C9 at a concrete employee list and prompt list. -/
theorem c9_witness :
    List.Forall₂ (fun e r =>
      r = { e with
            flagged_prompts := some (jsonDumps (([] : List PromptRec).filter (fun p => p.employee_id == e.employee_id))) })
      [sampleEmployee] (merge_flagged_prompts [sampleEmployee] []) ∧
    ∀ r ∈ merge_flagged_prompts [sampleEmployee] [],
      (∀ p ∈ ([] : List PromptRec), p.employee_id ≠ r.employee_id) →
      r.flagged_prompts = some "[]" :=
  c9_claim [sampleEmployee] []

/-- **Claim C6** (confirmed).  For a missing file path, `extract_file`
returns the empty result (`[]`, or Python's `None` for XML), logs a warning,
and does not raise: the run continues with empty data for that source. -/
theorem c6_claim (fs : List (String × String)) (file_path file_type : String)
    (h : aget fs file_path = none) :
    extract_file fs file_path file_type =
      ((if file_type == "xml" then ExtractOut.pyNone else ExtractOut.emptyList),
       ["Missing file: " ++ file_path]) ∧
    (file_type ≠ "xml" → (extract_file fs file_path file_type).1 = ExtractOut.emptyList) ∧
    (file_type = "xml" → (extract_file fs file_path file_type).1 = ExtractOut.pyNone) := by
  refine ⟨by simp [extract_file, h], ?_, ?_⟩
  · intro ht
    simp [extract_file, h, ht]
  · intro ht
    simp [extract_file, h, ht]

/-- Witness for C6: a missing CSV file yields `[]` plus a warning. -/
theorem c6_witness :
    aget ([("present.csv", "a,b")] : List (String × String)) "missing.csv" = none ∧
    extract_file [("present.csv", "a,b")] "missing.csv" "csv" =
      (ExtractOut.emptyList, ["Missing file: " ++ "missing.csv"]) :=
  ⟨by decide,
   by
    have h := (c6_claim [("present.csv", "a,b")] "missing.csv" "csv" (by decide)).1
    simpa using h⟩

/-- **Claim C7, counterexample.**  The claim says a customer record without
an email is always inserted as a new row; but a record whose `name` is also
empty is skipped entirely: loading it into the empty table inserts nothing. -/
theorem c7_counterexample :
    blankCustomer.email = "" ∧
    load_customers emptyDB [blankCustomer] = .ok emptyDB := by
  exact ⟨rfl, rfl⟩

/-- **Claim C7** (amended).  For every customer record with a non-empty
`name`: with a non-empty email the loader matches an existing row by that
email and overwrites it; with an empty email it inserts a new row without
matching.  A record with an empty `name` is skipped (neither matched nor
inserted). -/
theorem c7_amended_claim (db : GDB CustomerRec) (c : CustomerRec) (r : GRow CustomerRec) :
    (c.name = "" → loadCustomerStep db c = .ok db) ∧
    (c.name ≠ "" → c.email = "" →
      loadCustomerStep db c = .ok ⟨db.rows ++ [⟨db.nextId, c⟩], db.nextId + 1⟩) ∧
    (c.name ≠ "" → c.email ≠ "" → customerGet db c.email = .ok (some r) →
      r ∈ db.rows ∧ r.data.email = c.email ∧
      loadCustomerStep db c =
        .ok ⟨db.rows.map (fun x => if x.id = r.id then ⟨x.id, c⟩ else x), db.nextId⟩) := by
  refine ⟨?_, ?_, ?_⟩
  · intro h
    simp [loadCustomerStep, h]
  · intro h1 h2
    simp [loadCustomerStep, h1, h2]
    rfl
  · intro h1 h2 hget
    have hfil : db.rows.filter (fun x => x.data.email == c.email) = [r] := by
      unfold customerGet at hget
      rcases hfe : db.rows.filter (fun x => x.data.email == c.email) with _ | ⟨x, _ | ⟨y, t⟩⟩
      · rw [hfe] at hget
        exact absurd hget (by simp)
      · rw [hfe] at hget
        simp only [Except.ok.injEq, Option.some.injEq] at hget
        rw [hfe, hget]
      · rw [hfe] at hget
        exact absurd hget (by simp)
    have hrmem : r ∈ db.rows.filter (fun x => x.data.email == c.email) := by
      rw [hfil]; exact List.mem_singleton.mpr rfl
    refine ⟨List.mem_of_mem_filter hrmem, ?_, ?_⟩
    · have := List.of_mem_filter hrmem
      simpa using this
    · unfold loadCustomerStep customerGet
      rw [if_neg h1, if_pos h2, hfil]
      rfl

/-- Witness for C7: inserting a named, email-free customer into the empty
table appends one row. -/
theorem c7_witness :
    noEmailCustomer.name ≠ "" ∧ noEmailCustomer.email = "" ∧
    loadCustomerStep emptyDB noEmailCustomer =
      .ok ⟨(emptyDB : GDB CustomerRec).rows ++ [⟨(emptyDB : GDB CustomerRec).nextId, noEmailCustomer⟩],
           (emptyDB : GDB CustomerRec).nextId + 1⟩ :=
  ⟨by decide, rfl,
   (c7_amended_claim emptyDB noEmailCustomer ⟨0, blankCustomer⟩).2.1 (by decide) rfl⟩

/-! # The generic upsert machine: idempotence -/

theorem getLast?_cons_eq {ρ : Type} (a : ρ) (l : List ρ) :
    (a :: l).getLast? = some (l.getLast?.getD a) := by
  induction l generalizing a with
  | nil => rfl
  | cons b l ih =>
    rw [List.getLast?_cons_cons, ih b]
    rfl

theorem genLoad_cons {ρ : Type} (key : ρ → String) (skip : ρ → Bool) (db : GDB ρ)
    (c : ρ) (cs : List ρ) :
    genLoad key skip db (c :: cs) =
      (genStep key skip db c).bind (fun db' => genLoad key skip db' cs) := rfl

theorem genStep_skip {ρ : Type} (key : ρ → String) (skip : ρ → Bool) (db : GDB ρ)
    (c : ρ) (h : skip c = true) : genStep key skip db c = .ok db := by
  simp [genStep, h]

theorem filter_key_cases {ρ : Type} (key : ρ → String) (l : List (GRow ρ))
    (hpw : l.Pairwise (fun a b => key a.data ≠ key b.data ∧ a.id ≠ b.id)) (k : String) :
    l.filter (fun r => key r.data == k) = [] ∨
    ∃ r₀, l.filter (fun r => key r.data == k) = [r₀] ∧ r₀ ∈ l ∧ key r₀.data = k := by
  induction l with
  | nil => exact Or.inl rfl
  | cons a l ih =>
    have hpa : ∀ b ∈ l, key a.data ≠ key b.data :=
      fun b hb => ((List.pairwise_cons.mp hpw).1 b hb).1
    have hpw' := (List.pairwise_cons.mp hpw).2
    by_cases ha : key a.data = k
    · refine Or.inr ⟨a, ?_, List.mem_cons_self a l, ha⟩
      have hfl : l.filter (fun r => key r.data == k) = [] := by
        rw [List.filter_eq_nil_iff]
        intro b hb
        simp only [beq_iff_eq]
        intro e
        exact hpa b hb (by rw [ha, e])
      rw [List.filter_cons_of_pos (by simp [ha]), hfl]
    · rw [List.filter_cons_of_neg (by simp [ha])]
      rcases ih hpw' with h | ⟨r₀, h1, h2, h3⟩
      · exact Or.inl h
      · exact Or.inr ⟨r₀, h1, List.mem_cons_of_mem a h2, h3⟩

theorem update_key_pointwise {ρ : Type} (key : ρ → String) (l : List (GRow ρ))
    (r₀ : GRow ρ) (c : ρ) (hids : l.Pairwise (fun a b => a.id ≠ b.id))
    (hmem : r₀ ∈ l) (hkey : key c = key r₀.data) :
    ∀ x ∈ l, key ((if x.id = r₀.id then (⟨x.id, c⟩ : GRow ρ) else x)).data = key x.data := by
  intro x hx
  by_cases hid : x.id = r₀.id
  · have hsym : Symmetric (fun a b : GRow ρ => a.id ≠ b.id) :=
      fun x y h => Ne.symm h
    have hxr : x = r₀ := by
      by_contra hne
      exact absurd hid (hids.forall hsym hx hmem hne)
    simp [hid, hkey, hxr]
  · simp [hid]

theorem hasKey_map_update {ρ : Type} (key : ρ → String) (l : List (GRow ρ))
    (f : GRow ρ → GRow ρ) (hf : ∀ x ∈ l, key (f x).data = key x.data) (k : String) :
    (∃ r ∈ l.map f, key r.data = k) ↔ (∃ r ∈ l, key r.data = k) := by
  constructor
  · rintro ⟨r, hr, hk⟩
    obtain ⟨x, hx, rfl⟩ := List.mem_map.mp hr
    exact ⟨x, hx, by rw [← hf x hx]; exact hk⟩
  · rintro ⟨x, hx, hk⟩
    exact ⟨f x, List.mem_map_of_mem f hx, by rw [hf x hx]; exact hk⟩

theorem pairwise_map_update {ρ : Type} (key : ρ → String) (l : List (GRow ρ))
    (f : GRow ρ → GRow ρ) (hf : ∀ x ∈ l, key (f x).data = key x.data)
    (hfid : ∀ x, (f x).id = x.id)
    (hpw : l.Pairwise (fun a b => key a.data ≠ key b.data ∧ a.id ≠ b.id)) :
    (l.map f).Pairwise (fun a b => key a.data ≠ key b.data ∧ a.id ≠ b.id) := by
  rw [List.pairwise_map]
  refine List.Pairwise.imp_of_mem ?_ hpw
  intro a b ha hb hab
  exact ⟨by rw [hf a ha, hf b hb]; exact hab.1, by rw [hfid a, hfid b]; exact hab.2⟩

theorem lastW_cons_skip {ρ : Type} (key : ρ → String) (skip : ρ → Bool) (c : ρ)
    (cs : List ρ) (k : String) (h : skip c = true) :
    lastW key skip (c :: cs) k = lastW key skip cs k := by
  simp [lastW, h]

theorem lastW_cons_ne {ρ : Type} (key : ρ → String) (skip : ρ → Bool) (c : ρ)
    (cs : List ρ) (k : String) (h : ¬ key c = k) :
    lastW key skip (c :: cs) k = lastW key skip cs k := by
  simp [lastW, h]

theorem lastW_cons_eq {ρ : Type} (key : ρ → String) (skip : ρ → Bool) (c : ρ)
    (cs : List ρ) (k : String) (hs : skip c = false) (h : key c = k) :
    lastW key skip (c :: cs) k = some ((lastW key skip cs k).getD c) := by
  unfold lastW
  rw [List.filter_cons_of_pos (by simp [hs, h]), getLast?_cons_eq]

theorem massUpd_nil {ρ : Type} (key : ρ → String) (skip : ρ → Bool) (db : GDB ρ) :
    massUpd key skip db [] = db := by
  cases db with
  | mk rows nextId => simp [massUpd, lastW]

theorem genLoad_run2 {ρ : Type} (key : ρ → String) (skip : ρ → Bool) (cs : List ρ) :
    ∀ (db : GDB ρ),
    db.rows.Pairwise (fun a b => key a.data ≠ key b.data ∧ a.id ≠ b.id) →
    (∀ c ∈ cs, skip c = false → hasKey key db (key c)) →
    genLoad key skip db cs = .ok (massUpd key skip db cs) := by
  induction cs with
  | nil =>
    intro db hpw _
    rw [massUpd_nil]
    rfl
  | cons c cs ih =>
    intro db hpw hin
    rw [genLoad_cons]
    by_cases hs : skip c = true
    · rw [genStep_skip key skip db c hs]
      show genLoad key skip db cs = _
      rw [ih db hpw (fun c' h' hsk => hin c' (List.mem_cons_of_mem c h') hsk)]
      congr 1
      unfold massUpd
      congr 1
      apply List.map_congr_left
      intro r _
      rw [lastW_cons_skip _ _ _ _ _ hs]
    · have hs' : skip c = false := by simpa using hs
      obtain ⟨rk, hrkmem, hrkkey⟩ := hin c (List.mem_cons_self c cs) hs'
      rcases filter_key_cases key db.rows hpw (key c) with hf | ⟨r₀, hf, hr₀mem, hr₀key⟩
      · exfalso
        have hmem : rk ∈ db.rows.filter (fun r => key r.data == key c) :=
          List.mem_filter.mpr ⟨hrkmem, by simp [hrkkey]⟩
        rw [hf] at hmem
        exact List.not_mem_nil rk hmem
      · have hstep : genStep key skip db c =
            .ok ⟨db.rows.map (fun x => if x.id = r₀.id then ⟨x.id, c⟩ else x), db.nextId⟩ := by
          simp [genStep, hs', hf]
        rw [hstep]
        have hfkey : ∀ x ∈ db.rows,
            key ((if x.id = r₀.id then (⟨x.id, c⟩ : GRow ρ) else x)).data = key x.data :=
          update_key_pointwise key db.rows r₀ c (hpw.imp (fun h => h.2)) hr₀mem hr₀key.symm
        have hfid : ∀ x : GRow ρ, ((if x.id = r₀.id then (⟨x.id, c⟩ : GRow ρ) else x)).id = x.id := by
          intro x
          by_cases h : x.id = r₀.id <;> simp [h]
        have hpw' := pairwise_map_update key db.rows _ hfkey hfid hpw
        have hin' : ∀ c' ∈ cs, skip c' = false →
            hasKey key ⟨db.rows.map (fun x => if x.id = r₀.id then ⟨x.id, c⟩ else x), db.nextId⟩ (key c') := by
          intro c' h' hsk
          exact (hasKey_map_update key db.rows _ hfkey (key c')).mpr
            (hin c' (List.mem_cons_of_mem c h') hsk)
        show genLoad key skip ⟨db.rows.map _, db.nextId⟩ cs = _
        rw [ih _ hpw' hin']
        congr 1
        unfold massUpd
        simp only [List.map_map]
        congr 1
        apply List.map_congr_left
        intro x hx
        have hsymk : Symmetric (fun a b : GRow ρ => key a.data ≠ key b.data) :=
          fun a b h => Ne.symm h
        by_cases hid : x.id = r₀.id
        · have hxr : x = r₀ := by
            by_contra hne
            exact absurd hid ((hpw.imp (fun h => h.2)).forall
              (fun a b h => Ne.symm h) hx hr₀mem hne)
          have hkx : key x.data = key c := by rw [hxr, hr₀key]
          simp only [Function.comp_apply, hid, if_pos rfl]
          rw [lastW_cons_eq key skip c cs (key x.data) hs' hkx.symm]
          cases hl : lastW key skip cs (key c) with
          | some c'' => simp [hkx, hl]
          | none => simp [hkx, hl]
        · have hxnr : x ≠ r₀ := fun e => hid (by rw [e])
          have hkne : key x.data ≠ key c := by
            rw [← hr₀key]
            exact (hpw.imp (fun h => h.1)).forall hsymk hx hr₀mem hxnr
          have hfx : (if x.id = r₀.id then (⟨x.id, c⟩ : GRow ρ) else x) = x := if_neg hid
          simp only [Function.comp_apply, hfx]
          rw [lastW_cons_ne key skip c cs (key x.data) (fun e => hkne e.symm)]

theorem genLoad_run1 {ρ : Type} (key : ρ → String) (skip : ρ → Bool) (cs : List ρ) :
    ∀ (db : GDB ρ), InvDB key db →
    ∃ db₁, genLoad key skip db cs = .ok db₁ ∧ InvDB key db₁ ∧
      (∀ c ∈ cs, skip c = false → hasKey key db₁ (key c)) ∧
      (∀ r ∈ db₁.rows, ∀ c', lastW key skip cs (key r.data) = some c' → r.data = c') ∧
      (∀ r ∈ db₁.rows, lastW key skip cs (key r.data) = none → r ∈ db.rows) ∧
      (∀ k, hasKey key db k → hasKey key db₁ k) := by
  induction cs with
  | nil =>
    intro db hinv
    refine ⟨db, rfl, hinv, by simp, ?_, fun r hr _ => hr, fun k h => h⟩
    intro r _ c' hl
    simp [lastW] at hl
  | cons c cs ih =>
    intro db hinv
    obtain ⟨hpw, hlt⟩ := hinv
    rw [genLoad_cons]
    by_cases hs : skip c = true
    · rw [genStep_skip key skip db c hs]
      obtain ⟨db₁, h1, hinv₁, hkeys, hlast, hstr, hpres⟩ := ih db ⟨hpw, hlt⟩
      refine ⟨db₁, h1, hinv₁, ?_, ?_, ?_, hpres⟩
      · intro c' hc' hsk
        rcases List.mem_cons.mp hc' with rfl | h'
        · exact absurd hsk (by simp [hs])
        · exact hkeys c' h' hsk
      · intro r hr c' hl
        rw [lastW_cons_skip _ _ _ _ _ hs] at hl
        exact hlast r hr c' hl
      · intro r hr hl
        rw [lastW_cons_skip _ _ _ _ _ hs] at hl
        exact hstr r hr hl
    · have hs' : skip c = false := by simpa using hs
      rcases filter_key_cases key db.rows hpw (key c) with hf | ⟨r₀, hf, hr₀mem, hr₀key⟩
      · -- insert branch: no row carries the key yet
        have hstep : genStep key skip db c =
            .ok ⟨db.rows ++ [⟨db.nextId, c⟩], db.nextId + 1⟩ := by
          simp [genStep, hs', hf]
        rw [hstep]
        have hnotk : ∀ x ∈ db.rows, key x.data ≠ key c := by
          intro x hx
          have := List.filter_eq_nil_iff.mp hf x hx
          simpa using this
        have hinv' : InvDB key ⟨db.rows ++ [⟨db.nextId, c⟩], db.nextId + 1⟩ := by
          constructor
          · rw [List.pairwise_append]
            refine ⟨hpw, List.pairwise_singleton _ _, ?_⟩
            intro a ha b hb
            rw [List.mem_singleton.mp hb]
            exact ⟨hnotk a ha, Nat.ne_of_lt (hlt a ha)⟩
          · intro r hr
            rcases List.mem_append.mp hr with h | h
            · exact Nat.lt_succ_of_lt (hlt r h)
            · rw [List.mem_singleton.mp h]
              exact Nat.lt_succ_self _
        obtain ⟨db₁, h1, hinv₁, hkeys, hlast, hstr, hpres⟩ := ih _ hinv'
        refine ⟨db₁, h1, hinv₁, ?_, ?_, ?_, ?_⟩
        · intro c' hc' hsk
          rcases List.mem_cons.mp hc' with rfl | h'
          · exact hpres _ ⟨⟨db.nextId, _⟩,
              List.mem_append_right _ (List.mem_singleton.mpr rfl), rfl⟩
          · exact hkeys c' h' hsk
        · intro r hr c' hl
          by_cases hkc : key r.data = key c
          · rw [hkc, lastW_cons_eq key skip c cs (key c) hs' rfl] at hl
            cases hl2 : lastW key skip cs (key c) with
            | some c'' =>
              rw [hl2] at hl
              simp only [Option.getD_some, Option.some.injEq] at hl
              exact hlast r hr c' (by rw [hkc, hl2, hl])
            | none =>
              rw [hl2] at hl
              simp only [Option.getD_none, Option.some.injEq] at hl
              have hrdb' : r ∈ db.rows ++ [⟨db.nextId, c⟩] :=
                hstr r hr (by rw [hkc]; exact hl2)
              rcases List.mem_append.mp hrdb' with h | h
              · exact absurd hkc (hnotk r h)
              · rw [List.mem_singleton.mp h, ← hl]
          · rw [lastW_cons_ne key skip c cs _ (fun e => hkc e.symm)] at hl
            exact hlast r hr c' hl
        · intro r hr hl
          have hkc : key r.data ≠ key c := by
            intro e
            rw [e, lastW_cons_eq key skip c cs (key c) hs' rfl] at hl
            exact absurd hl (by simp)
          rw [lastW_cons_ne key skip c cs _ (fun e => hkc e.symm)] at hl
          have hrdb' := hstr r hr hl
          rcases List.mem_append.mp hrdb' with h | h
          · exact h
          · exfalso
            rw [List.mem_singleton.mp h] at hkc
            exact hkc rfl
        · intro k hk
          apply hpres
          obtain ⟨r, hr, hkr⟩ := hk
          exact ⟨r, List.mem_append_left _ hr, hkr⟩
      · -- update branch: exactly one row carries the key
        have hstep : genStep key skip db c =
            .ok ⟨db.rows.map (fun x => if x.id = r₀.id then ⟨x.id, c⟩ else x), db.nextId⟩ := by
          simp [genStep, hs', hf]
        rw [hstep]
        have hfkey : ∀ x ∈ db.rows,
            key ((if x.id = r₀.id then (⟨x.id, c⟩ : GRow ρ) else x)).data = key x.data :=
          update_key_pointwise key db.rows r₀ c (hpw.imp (fun h => h.2)) hr₀mem hr₀key.symm
        have hfid : ∀ x : GRow ρ,
            ((if x.id = r₀.id then (⟨x.id, c⟩ : GRow ρ) else x)).id = x.id := by
          intro x
          by_cases h : x.id = r₀.id <;> simp [h]
        have hpw' := pairwise_map_update key db.rows _ hfkey hfid hpw
        have hlt' : ∀ r ∈ db.rows.map (fun x => if x.id = r₀.id then (⟨x.id, c⟩ : GRow ρ) else x),
            r.id < db.nextId := by
          intro r hr
          obtain ⟨x, hx, rfl⟩ := List.mem_map.mp hr
          rw [hfid x]
          exact hlt x hx
        obtain ⟨db₁, h1, hinv₁, hkeys, hlast, hstr, hpres⟩ :=
          ih ⟨db.rows.map (fun x => if x.id = r₀.id then ⟨x.id, c⟩ else x), db.nextId⟩
            ⟨hpw', hlt'⟩
        refine ⟨db₁, h1, hinv₁, ?_, ?_, ?_, ?_⟩
        · intro c' hc' hsk
          rcases List.mem_cons.mp hc' with rfl | h'
          · apply hpres
            refine ⟨_, List.mem_map_of_mem _ hr₀mem, ?_⟩
            simp
          · exact hkeys c' h' hsk
        · intro r hr c' hl
          by_cases hkc : key r.data = key c
          · rw [hkc, lastW_cons_eq key skip c cs (key c) hs' rfl] at hl
            cases hl2 : lastW key skip cs (key c) with
            | some c'' =>
              rw [hl2] at hl
              simp only [Option.getD_some, Option.some.injEq] at hl
              exact hlast r hr c' (by rw [hkc, hl2, hl])
            | none =>
              rw [hl2] at hl
              simp only [Option.getD_none, Option.some.injEq] at hl
              have hrdb' := hstr r hr (by rw [hkc]; exact hl2)
              obtain ⟨x, hx, hfx⟩ := List.mem_map.mp hrdb'
              have hxkey : key x.data = key c := by
                rw [← hfkey x hx, hfx, hkc]
              have hxr : x = r₀ := by
                have hmem : x ∈ db.rows.filter (fun r => key r.data == key c) :=
                  List.mem_filter.mpr ⟨hx, by simp [hxkey]⟩
                rw [hf] at hmem
                exact List.mem_singleton.mp hmem
              rw [← hfx, hxr]
              simpa using hl
          · rw [lastW_cons_ne key skip c cs _ (fun e => hkc e.symm)] at hl
            exact hlast r hr c' hl
        · intro r hr hl
          have hkc : key r.data ≠ key c := by
            intro e
            rw [e, lastW_cons_eq key skip c cs (key c) hs' rfl] at hl
            exact absurd hl (by simp)
          rw [lastW_cons_ne key skip c cs _ (fun e => hkc e.symm)] at hl
          have hrdb' := hstr r hr hl
          obtain ⟨x, hx, hfx⟩ := List.mem_map.mp hrdb'
          by_cases hxid : x.id = r₀.id
          · exfalso
            apply hkc
            rw [← hfx]
            simp [hxid, hr₀key]
          · rw [← hfx, if_neg hxid]
            exact hx
        · intro k hk
          apply hpres
          exact (hasKey_map_update key db.rows _ hfkey k).mpr hk

theorem InvDB_empty {ρ : Type} (key : ρ → String) : InvDB key (emptyDB : GDB ρ) :=
  ⟨List.Pairwise.nil, by simp [emptyDB]⟩

theorem genLoad_idem {ρ : Type} (key : ρ → String) (skip : ρ → Bool) (cs : List ρ)
    (db₀ : GDB ρ) (h : InvDB key db₀) :
    (genLoad key skip db₀ cs).bind (fun db => genLoad key skip db cs) =
      genLoad key skip db₀ cs := by
  obtain ⟨db₁, h1, hinv₁, hkeys, hlast, _, _⟩ := genLoad_run1 key skip cs db₀ h
  rw [h1]
  show genLoad key skip db₁ cs = .ok db₁
  rw [genLoad_run2 key skip cs db₁ hinv₁.1 hkeys]
  congr 1
  have hpt : ∀ r ∈ db₁.rows,
      (match lastW key skip cs (key r.data) with
       | some c => (⟨r.id, c⟩ : GRow ρ)
       | none => r) = r := by
    intro r hr
    cases hl : lastW key skip cs (key r.data) with
    | some c' =>
      have hd := hlast r hr c' hl
      simp [← hd]
    | none => rfl
  obtain ⟨rows₁, next₁⟩ := db₁
  unfold massUpd
  congr 1
  rw [List.map_congr_left hpt]
  simp

theorem load_customers_cons (db : GDB CustomerRec) (c : CustomerRec)
    (cs : List CustomerRec) :
    load_customers db (c :: cs) =
      (loadCustomerStep db c).bind (fun db' => load_customers db' cs) := rfl

theorem load_employees_cons (db : GDB EmployeeOut) (e : EmployeeOut)
    (es : List EmployeeOut) :
    load_employees db (e :: es) =
      (loadEmployeeStep db e).bind (fun db' => load_employees db' es) := rfl

theorem loadCustomerStep_eq_genStep (db : GDB CustomerRec) (c : CustomerRec)
    (h : c.email ≠ "") :
    loadCustomerStep db c = genStep custKey custSkip db c := by
  unfold loadCustomerStep genStep customerGet custKey custSkip
  by_cases hn : c.name = ""
  · simp [hn]
  · rw [if_neg hn, if_pos h]
    have hb : (c.name == "") = false := by simp [hn]
    rw [hb]
    simp only [Bool.false_eq_true, if_false]
    rcases hfil : db.rows.filter (fun r => r.data.email == c.email) with _ | ⟨x, _ | ⟨y, t⟩⟩ <;>
      rw [hfil] <;> rfl

theorem loadEmployeeStep_eq_genStep (db : GDB EmployeeOut) (e : EmployeeOut) :
    loadEmployeeStep db e = genStep empKey empSkip db e := by
  unfold loadEmployeeStep genStep employeeGet empKey empSkip
  by_cases hn : e.employee_id = ""
  · simp [hn]
  · rw [if_neg hn]
    have hb : (e.employee_id == "") = false := by simp [hn]
    rw [hb]
    simp only [Bool.false_eq_true, if_false]
    rcases hfil : db.rows.filter (fun r => r.data.employee_id == e.employee_id) with _ | ⟨x, _ | ⟨y, t⟩⟩ <;>
      rw [hfil] <;> rfl

theorem load_customers_eq_genLoad (cs : List CustomerRec)
    (h : ∀ c ∈ cs, c.email ≠ "") :
    ∀ db, load_customers db cs = genLoad custKey custSkip db cs := by
  induction cs with
  | nil => intro db; rfl
  | cons c cs ih =>
    intro db
    have hc := h c (List.mem_cons_self c cs)
    have h' : ∀ c' ∈ cs, c'.email ≠ "" := fun c' hx => h c' (List.mem_cons_of_mem c hx)
    rw [load_customers_cons, genLoad_cons, loadCustomerStep_eq_genStep db c hc]
    cases hg : genStep custKey custSkip db c with
    | ok db' =>
      show load_customers db' cs = genLoad custKey custSkip db' cs
      exact ih h' db'
    | error e => rfl

theorem load_employees_eq_genLoad (es : List EmployeeOut) :
    ∀ db, load_employees db es = genLoad empKey empSkip db es := by
  induction es with
  | nil => intro db; rfl
  | cons e es ih =>
    intro db
    rw [load_employees_cons, genLoad_cons, loadEmployeeStep_eq_genStep db e]
    cases hg : genStep empKey empSkip db e with
    | ok db' =>
      show load_employees db' es = genLoad empKey empSkip db' es
      exact ih db'
    | error msg => rfl

/-- **Claim C1, counterexample.**  A customer record with a non-empty name
but no email is inserted *again* by a second run over unchanged input: the
table holds one row after one run and two rows after two runs. -/
theorem c1_counterexample :
    load_customers emptyDB [noEmailCustomer] =
      .ok ⟨[⟨1, noEmailCustomer⟩], 2⟩ ∧
    (load_customers emptyDB [noEmailCustomer]).bind
        (fun db => load_customers db [noEmailCustomer]) =
      .ok ⟨[⟨1, noEmailCustomer⟩, ⟨2, noEmailCustomer⟩], 3⟩ ∧
    (Except.ok (⟨[⟨1, noEmailCustomer⟩], 2⟩ : GDB CustomerRec) : Except String (GDB CustomerRec)) ≠
      .ok ⟨[⟨1, noEmailCustomer⟩, ⟨2, noEmailCustomer⟩], 3⟩ := by
  refine ⟨rfl, rfl, ?_⟩
  intro h
  simp at h

/-- **Claim C1** (amended).  Starting from an empty database, running the
loader twice over the same input leaves exactly the rows of a single run —
provided every customer record carries a non-empty email.  The employee
loader is unconditionally idempotent (records with an empty id are skipped,
all others are keyed by `employee_id`). -/
theorem c1_amended_claim (cs : List CustomerRec) (es : List EmployeeOut)
    (hc : ∀ c ∈ cs, c.email ≠ "") :
    (load_customers emptyDB cs).bind (fun db => load_customers db cs) =
      load_customers emptyDB cs ∧
    (load_employees emptyDB es).bind (fun db => load_employees db es) =
      load_employees emptyDB es := by
  constructor
  · rw [load_customers_eq_genLoad cs hc emptyDB]
    have he := load_customers_eq_genLoad cs hc
    calc (genLoad custKey custSkip emptyDB cs).bind (fun db => load_customers db cs)
        = (genLoad custKey custSkip emptyDB cs).bind
            (fun db => genLoad custKey custSkip db cs) := by
          congr 1
          funext db
          exact he db
      _ = genLoad custKey custSkip emptyDB cs := genLoad_idem _ _ _ _ (InvDB_empty _)
  · rw [load_employees_eq_genLoad es emptyDB]
    have he := load_employees_eq_genLoad es
    calc (genLoad empKey empSkip emptyDB es).bind (fun db => load_employees db es)
        = (genLoad empKey empSkip emptyDB es).bind
            (fun db => genLoad empKey empSkip db es) := by
          congr 1
          funext db
          exact he db
      _ = genLoad empKey empSkip emptyDB es := genLoad_idem _ _ _ _ (InvDB_empty _)

/-- Witness for C1 at a concrete customer and employee list. -/
theorem c1_witness :
    (∀ c ∈ [adaCustomer], c.email ≠ "") ∧
    (load_customers emptyDB [adaCustomer]).bind
        (fun db => load_customers db [adaCustomer]) =
      load_customers emptyDB [adaCustomer] ∧
    (load_employees emptyDB [sampleEmployee]).bind
        (fun db => load_employees db [sampleEmployee]) =
      load_employees emptyDB [sampleEmployee] := by
  have h := c1_amended_claim [adaCustomer] [sampleEmployee] (by decide)
  exact ⟨by decide, h.1, h.2⟩

/-! # Lemmas for `extract_flagged_prompts` (claim C10) -/

theorem getD_append_left_str (l l' : List String) (j : Nat) (h : j < l.length) :
    (l ++ l').getD j "" = l.getD j "" := by
  rw [List.getD_eq_getElem?_getD, List.getD_eq_getElem?_getD, List.getElem?_append_left h]

theorem getD_append_middle (l r : List String) (x : String) :
    (l ++ x :: r).getD l.length "" = x := by
  rw [List.getD_eq_getElem?_getD, List.getElem?_append_right (Nat.le_refl _)]
  simp

theorem aget_setdefaultKey {α : Type} (m : List (String × List α)) (k : String) :
    aget (setdefaultKey m k) k = some ((aget m k).getD []) := by
  unfold setdefaultKey
  cases h : aget m k with
  | some l => simp [h]
  | none =>
    rw [aget_append]
    simp [h, aget]

theorem aget_setdefaultKey_ne {α : Type} (m : List (String × List α)) (k k' : String)
    (h : k' ≠ k) : aget (setdefaultKey m k) k' = aget m k' := by
  unfold setdefaultKey
  cases hm : aget m k with
  | some l => rfl
  | none =>
    rw [aget_append]
    cases hm' : aget m k' with
    | some l => simp
    | none => simp [aget, Ne.symm h]

theorem nodup_setdefaultKey {α : Type} (m : List (String × List α)) (k : String)
    (h : (m.map Prod.fst).Nodup) : ((setdefaultKey m k).map Prod.fst).Nodup := by
  unfold setdefaultKey
  cases hm : aget m k with
  | some l => exact h
  | none =>
    rw [List.map_append, List.nodup_append]
    refine ⟨h, by simp, ?_⟩
    intro a ha hb
    simp only [List.map_cons, List.map_nil, List.mem_singleton] at hb
    obtain ⟨p, hp, hpa⟩ := List.mem_map.mp ha
    exact (aget_eq_none_iff m k).mp hm p hp (hpa.trans hb)

theorem mem_setdefaultKey {α : Type} (m : List (String × List α)) (k : String) :
    ∀ p ∈ setdefaultKey m k, p ∈ m ∨ p = (k, ([] : List α)) := by
  unfold setdefaultKey
  cases hm : aget m k with
  | some l => exact fun p hp => Or.inl hp
  | none =>
    intro p hp
    rcases List.mem_append.mp hp with h | h
    · exact Or.inl h
    · exact Or.inr (List.mem_singleton.mp h)

theorem sumLen_setdefaultKey {α : Type} (m : List (String × List α)) (k : String) :
    ((setdefaultKey m k).map (fun p => p.2.length)).sum =
      (m.map (fun p => p.2.length)).sum := by
  unfold setdefaultKey
  cases hm : aget m k with
  | some l => rfl
  | none => simp

theorem keys_aset {α : Type} (m : List (String × α)) (k : String) (v : α) (w : α)
    (h : aget m k = some w) : (aset m k v).map Prod.fst = m.map Prod.fst := by
  induction m with
  | nil => simp [aget] at h
  | cons p m ih =>
    by_cases hp : p.1 = k
    · simp [aset, hp]
    · have h' : aget m k = some w := by simpa [aget, hp] using h
      simp [aset, hp, ih h']

theorem mem_aset {α : Type} (m : List (String × α)) (k : String) (v : α) :
    ∀ p ∈ aset m k v, p = (k, v) ∨ p ∈ m := by
  induction m with
  | nil =>
    intro p hp
    exact Or.inl (List.mem_singleton.mp (by simpa [aset] using hp))
  | cons q m ih =>
    intro p hp
    by_cases hq : q.1 = k
    · rw [show aset (q :: m) k v = (k, v) :: m from by simp [aset, hq]] at hp
      rcases List.mem_cons.mp hp with h | h
      · exact Or.inl h
      · exact Or.inr (List.mem_cons_of_mem q h)
    · rw [show aset (q :: m) k v = q :: aset m k v from by simp [aset, hq]] at hp
      rcases List.mem_cons.mp hp with h | h
      · exact Or.inr (by rw [h]; exact List.mem_cons_self q m)
      · rcases ih p h with h' | h'
        · exact Or.inl h'
        · exact Or.inr (List.mem_cons_of_mem q h')

theorem sumLen_aset {α : Type} (m : List (String × List α)) (k : String)
    (v w : List α) (h : aget m k = some w) :
    ((aset m k v).map (fun p => p.2.length)).sum + w.length =
      (m.map (fun p => p.2.length)).sum + v.length := by
  induction m with
  | nil => simp [aget] at h
  | cons q m ih =>
    by_cases hq : q.1 = k
    · have hw : q.2 = w := by simpa [aget, hq] using h
      rw [show aset (q :: m) k v = (k, v) :: m from by simp [aset, hq]]
      simp [← hw]
      omega
    · have h' : aget m k = some w := by simpa [aget, hq] using h
      rw [show aset (q :: m) k v = q :: aset m k v from by simp [aset, hq]]
      simp only [List.map_cons, List.sum_cons]
      have := ih h'
      omega

theorem lastEidVal_append_eid (l : List String) (x : String) (h : lineEid x = true) :
    lastEidVal (l ++ [x]) = some (eidValOf x) := by
  unfold lastEidVal
  rw [List.reverse_append]
  show (List.find? lineEid (x :: l.reverse)).map eidValOf = _
  rw [List.find?_cons_of_pos _ h]
  rfl

theorem lastEidVal_append_not (l : List String) (x : String) (h : lineEid x = false) :
    lastEidVal (l ++ [x]) = lastEidVal l := by
  unfold lastEidVal
  rw [List.reverse_append]
  show (List.find? lineEid (x :: l.reverse)).map eidValOf = _
  rw [List.find?_cons_of_neg _ (by simp [h])]

theorem lastEidVal_some_index (l : List String) (w : String)
    (h : lastEidVal l = some w) :
    ∃ m < l.length, lineEid (l.getD m "") = true := by
  unfold lastEidVal at h
  cases hf : l.reverse.find? lineEid with
  | none => rw [hf] at h; exact absurd h (by simp)
  | some s =>
    have hs : lineEid s = true := List.find?_some hf
    have hmem : s ∈ l := List.mem_reverse.mp (List.mem_of_find?_eq_some hf)
    obtain ⟨n, hn, he⟩ := List.mem_iff_getElem.mp hmem
    exact ⟨n, hn, by rw [List.getD_eq_getElem _ _ hn, he]; exact hs⟩

theorem not_tsAfterEids_append_eid (l : List String) (x : String)
    (h : lineEid x = true) : ¬ tsAfterEids (l ++ [x]) := by
  rintro ⟨j, hj, hts, hno⟩
  have hlen : (l ++ [x]).length = l.length + 1 := by simp
  have hx : (l ++ [x]).getD l.length "" = x := getD_append_middle l [] x
  rcases Nat.lt_succ_iff_lt_or_eq.mp (by rw [hlen] at hj; exact hj) with hj' | hj'
  · have hk := hno l.length (by rw [hlen]; exact Nat.lt_succ_self _) hj'
    rw [hx] at hk
    rw [h] at hk
    exact absurd hk (by simp)
  · subst hj'
    rw [hx] at hts
    unfold lineTs at hts
    rw [h] at hts
    simp at hts

theorem tsAfterEids_append_ts (l : List String) (x : String) (h : lineTs x = true) :
    tsAfterEids (l ++ [x]) := by
  refine ⟨l.length, by simp, ?_, ?_⟩
  · rw [getD_append_middle l [] x]
    exact h
  · intro k hk hlk
    have : (l ++ [x]).length = l.length + 1 := by simp
    rw [this] at hk
    exact absurd hlk (by omega)

theorem tsAfterEids_append_elim (l : List String) (x : String)
    (hx : lineTs x = false) (h : tsAfterEids (l ++ [x])) : tsAfterEids l := by
  obtain ⟨j, hj, hts, hno⟩ := h
  have hlen : (l ++ [x]).length = l.length + 1 := by simp
  rcases Nat.lt_succ_iff_lt_or_eq.mp (by rw [hlen] at hj; exact hj) with hj' | hj'
  · refine ⟨j, hj', ?_, ?_⟩
    · rw [getD_append_left_str l [x] j hj'] at hts
      exact hts
    · intro k hk hjk
      have hk' := hno k (by rw [hlen]; omega) hjk
      rw [getD_append_left_str l [x] k hk] at hk'
      exact hk'
  · subst hj'
    rw [getD_append_middle l [] x] at hts
    simp [hts] at hx

theorem truthyId_some (id : String) (h : id ≠ "") : truthyId (some id) = true := by
  simp [truthyId, h]

theorem fpStep_eid (st : FPState) (line : String)
    (he : pyStartsWith (pyStrip line) "Employee ID:" = true) :
    fpStep st line = .ok ⟨setdefaultKey st.by_id (parsedVal (pyStrip line)),
                          some (parsedVal (pyStrip line))⟩ := by
  simp [fpStep, he]

theorem fpStep_ts (st : FPState) (line : String) (id : String) (items : List TsEntry)
    (he : pyStartsWith (pyStrip line) "Employee ID:" = false)
    (hts : pyStartsWith (pyStrip line) "Timestamp:" = true)
    (hcur : st.current = some id) (hne : id ≠ "")
    (hag : aget st.by_id id = some items) :
    fpStep st line =
      .ok ⟨aset st.by_id id (items ++ [⟨parsedVal (pyStrip line), ""⟩]), some id⟩ := by
  simp [fpStep, he, hts, hcur, truthyId_some id hne, hag]

theorem fpStep_prompt (st : FPState) (line : String) (id : String)
    (items : List TsEntry) (last : TsEntry)
    (he : pyStartsWith (pyStrip line) "Employee ID:" = false)
    (hts : pyStartsWith (pyStrip line) "Timestamp:" = false)
    (hp : pyStartsWith (pyStrip line) "Prompt:" = true)
    (hcur : st.current = some id) (hne : id ≠ "")
    (hag : aget st.by_id id = some items) (hgl : items.getLast? = some last) :
    fpStep st line =
      .ok ⟨aset st.by_id id
            (items.dropLast ++ [{ last with prompt := parsedVal (pyStrip line) }]),
           some id⟩ := by
  simp [fpStep, he, hts, hp, hcur, truthyId_some id hne, hag, hgl]

theorem fpStep_other (st : FPState) (line : String)
    (he : pyStartsWith (pyStrip line) "Employee ID:" = false)
    (hc2 : (pyStartsWith (pyStrip line) "Timestamp:" && truthyId st.current) = false)
    (hc3 : (pyStartsWith (pyStrip line) "Prompt:" && truthyId st.current) = false) :
    fpStep st line = .ok st := by
  simp [fpStep, he, hc2, hc3]

theorem acceptedCount_cons_eid (cur : Option String) (line : String) (rest : List String)
    (he : pyStartsWith (pyStrip line) "Employee ID:" = true) :
    acceptedCount cur (line :: rest) =
      acceptedCount (some (parsedVal (pyStrip line))) rest := by
  simp [acceptedCount, he]

theorem acceptedCount_cons_ts (cur : Option String) (line : String) (rest : List String)
    (he : pyStartsWith (pyStrip line) "Employee ID:" = false)
    (hc2 : (pyStartsWith (pyStrip line) "Timestamp:" && truthyId cur) = true) :
    acceptedCount cur (line :: rest) = 1 + acceptedCount cur rest := by
  simp [acceptedCount, he, hc2]

theorem acceptedCount_cons_other (cur : Option String) (line : String) (rest : List String)
    (he : pyStartsWith (pyStrip line) "Employee ID:" = false)
    (hc2 : (pyStartsWith (pyStrip line) "Timestamp:" && truthyId cur) = false) :
    acceptedCount cur (line :: rest) = acceptedCount cur rest := by
  simp [acceptedCount, he, hc2]

theorem acceptedCountFor_cons_eid (cur : Option String) (i : String) (line : String)
    (rest : List String) (he : pyStartsWith (pyStrip line) "Employee ID:" = true) :
    acceptedCountFor cur i (line :: rest) =
      acceptedCountFor (some (parsedVal (pyStrip line))) i rest := by
  simp [acceptedCountFor, he]

theorem acceptedCountFor_cons_ts (cur : Option String) (i : String) (line : String)
    (rest : List String) (he : pyStartsWith (pyStrip line) "Employee ID:" = false)
    (hc2 : (pyStartsWith (pyStrip line) "Timestamp:" && truthyId cur) = true) :
    acceptedCountFor cur i (line :: rest) =
      (if cur = some i then 1 else 0) + acceptedCountFor cur i rest := by
  simp [acceptedCountFor, he, hc2]

theorem acceptedCountFor_cons_other (cur : Option String) (i : String) (line : String)
    (rest : List String) (he : pyStartsWith (pyStrip line) "Employee ID:" = false)
    (hc2 : (pyStartsWith (pyStrip line) "Timestamp:" && truthyId cur) = false) :
    acceptedCountFor cur i (line :: rest) = acceptedCountFor cur i rest := by
  simp [acceptedCountFor, he, hc2]

theorem fpLoop (rest : List String) : ∀ (l₁ : List String) (st : FPState),
    fpPre (l₁ ++ rest) → fpInv l₁ st →
    ∃ st', List.foldlM fpStep st rest = .ok st' ∧ fpInv (l₁ ++ rest) st' ∧
      totalItems st' = totalItems st + acceptedCount st.current rest ∧
      ∀ i, idItems st' i = idItems st i + acceptedCountFor st.current i rest := by
  induction rest with
  | nil =>
    intro l₁ st _ hinv
    exact ⟨st, rfl, by simpa using hinv, by simp [acceptedCount],
           fun i => by simp [acceptedCountFor]⟩
  | cons line rest ih =>
    intro l₁ st hpre hinv
    obtain ⟨hnd, hcur, hitems, hkeys⟩ := hinv
    have happ : (l₁ ++ [line]) ++ rest = l₁ ++ line :: rest := by simp
    have hpre' : fpPre ((l₁ ++ [line]) ++ rest) := by rw [happ]; exact hpre
    rw [List.foldlM_cons]
    by_cases he : pyStartsWith (pyStrip line) "Employee ID:" = true
    · -- an `Employee ID:` line
      have heid : lineEid line = true := he
      rw [fpStep_eid st line he]
      have hinv' : fpInv (l₁ ++ [line])
          ⟨setdefaultKey st.by_id (parsedVal (pyStrip line)),
           some (parsedVal (pyStrip line))⟩ := by
        refine ⟨nodup_setdefaultKey _ _ hnd, ?_, ?_, ?_⟩
        · show some (parsedVal (pyStrip line)) = _
          rw [lastEidVal_append_eid l₁ line heid]
          rfl
        · intro id hid _
          simp only [Option.some.injEq] at hid
          rw [← hid]
          exact ⟨_, aget_setdefaultKey st.by_id (parsedVal (pyStrip line)),
                 fun hts => absurd hts (not_tsAfterEids_append_eid l₁ line heid)⟩
        · intro p hp hne
          rcases mem_setdefaultKey _ _ p hp with h | h
          · exact hkeys p h hne
          · rw [h] at hne
            exact absurd rfl hne
      obtain ⟨st', hrun, hinv'', htot, hper⟩ := ih (l₁ ++ [line]) _ hpre' hinv'
      have hid : ∀ i, idItems ⟨setdefaultKey st.by_id (parsedVal (pyStrip line)),
          some (parsedVal (pyStrip line))⟩ i = idItems st i := by
        intro i
        by_cases hiv : i = parsedVal (pyStrip line)
        · rw [hiv]
          simp only [idItems]
          rw [aget_setdefaultKey]
          simp
        · simp only [idItems]
          rw [aget_setdefaultKey_ne _ _ _ hiv]
      refine ⟨st', hrun, by rw [← happ]; exact hinv'', ?_, ?_⟩
      · rw [htot, acceptedCount_cons_eid st.current line rest he]
        have hti : totalItems ⟨setdefaultKey st.by_id (parsedVal (pyStrip line)),
            some (parsedVal (pyStrip line))⟩ = totalItems st :=
          sumLen_setdefaultKey _ _
        rw [hti]
      · intro i
        rw [hper i, acceptedCountFor_cons_eid st.current i line rest he, hid i]
    · have he' : pyStartsWith (pyStrip line) "Employee ID:" = false := by simpa using he
      have heid : lineEid line = false := he'
      by_cases hc2 : (pyStartsWith (pyStrip line) "Timestamp:" && truthyId st.current) = true
      · -- an accepted `Timestamp:` line
        have hand : pyStartsWith (pyStrip line) "Timestamp:" = true ∧
            truthyId st.current = true := by simpa using hc2
        obtain ⟨hts, htr⟩ := hand
        cases hcc : st.current with
        | none => rw [hcc] at htr; simp [truthyId] at htr
        | some id =>
          have hne : id ≠ "" := by
            rw [hcc] at htr
            simpa [truthyId] using htr
          obtain ⟨items, hag, _⟩ := hitems id hcc hne
          rw [fpStep_ts st line id items he' hts hcc hne hag]
          have hinv' : fpInv (l₁ ++ [line])
              ⟨aset st.by_id id (items ++ [⟨parsedVal (pyStrip line), ""⟩]), some id⟩ := by
            refine ⟨?_, ?_, ?_, ?_⟩
            · show ((aset st.by_id id _).map Prod.fst).Nodup
              rw [keys_aset st.by_id id _ items hag]
              exact hnd
            · show some id = _
              rw [lastEidVal_append_not l₁ line heid, ← hcur]
              exact hcc.symm
            · intro id' hid' _
              simp only [Option.some.injEq] at hid'
              rw [← hid']
              exact ⟨_, aget_aset_self _ _ _, fun _ => by simp⟩
            · intro p hp hne'
              rcases mem_aset _ _ _ p hp with h | h
              · rw [h]
                exact hne
              · exact hkeys p h hne'
          obtain ⟨st', hrun, hinv'', htot, hper⟩ := ih (l₁ ++ [line]) _ hpre' hinv'
          refine ⟨st', hrun, by rw [← happ]; exact hinv'', ?_, ?_⟩
          · rw [htot]
            have hti := sumLen_aset st.by_id id (items ++ [⟨parsedVal (pyStrip line), ""⟩])
              items hag
            have hacc := acceptedCount_cons_ts st.current line rest he' hc2
            rw [hcc] at hacc
            rw [hacc]
            simp only [totalItems]
            simp only [List.length_append, List.length_cons, List.length_nil] at hti
            omega
          · intro i
            rw [hper i]
            have hacf := acceptedCountFor_cons_ts st.current i line rest he' hc2
            rw [hcc] at hacf
            rw [hacf]
            by_cases hii : i = id
            · rw [hii]
              simp only [idItems]
              rw [aget_aset_self, hag]
              simp only [Option.getD_some, List.length_append, List.length_cons,
                List.length_nil, if_true, Option.some.injEq]
              omega
            · simp only [idItems]
              rw [aget_aset_ne st.by_id id i _ hii]
              simp only [Option.some.injEq]
              simp only [if_neg (Ne.symm hii)]
              omega
      · have hc2' : (pyStartsWith (pyStrip line) "Timestamp:" && truthyId st.current) = false := by
          simpa using hc2
        by_cases hc3 : (pyStartsWith (pyStrip line) "Prompt:" && truthyId st.current) = true
        · -- an accepted `Prompt:` line
          have hand : pyStartsWith (pyStrip line) "Prompt:" = true ∧
              truthyId st.current = true := by simpa using hc3
          obtain ⟨hp, htr⟩ := hand
          cases hcc : st.current with
          | none => rw [hcc] at htr; simp [truthyId] at htr
          | some id =>
            have hne : id ≠ "" := by
              rw [hcc] at htr
              simpa [truthyId] using htr
            have hts : pyStartsWith (pyStrip line) "Timestamp:" = false := by
              by_contra hb
              rw [Bool.not_eq_false] at hb
              rw [hb, hcc, truthyId_some id hne] at hc2'
              simp at hc2'
            have hlts : lineTs line = false := by simp [lineTs, hts]
            have hlp : linePrompt line = true := by simp [linePrompt, lineEid, he', hts, hp]
            have htsE : tsAfterEids l₁ := by
              have hlasteid : lastEidVal l₁ = some id := hcur.symm.trans hcc
              obtain ⟨m, hm, hmeid⟩ := lastEidVal_some_index l₁ id hlasteid
              have hi : l₁.length < (l₁ ++ line :: rest).length := by simp
              have hget : (l₁ ++ line :: rest).getD l₁.length "" = line :=
                getD_append_middle _ _ _
              have hex : ∃ m' < l₁.length,
                  lineEid ((l₁ ++ line :: rest).getD m' "") = true := by
                refine ⟨m, hm, ?_⟩
                rw [getD_append_left_str l₁ (line :: rest) m hm]
                exact hmeid
              obtain ⟨j, hj, hjts, hjno⟩ := hpre l₁.length hi (by rw [hget]; exact hlp) hex
              refine ⟨j, hj, ?_, ?_⟩
              · rw [getD_append_left_str l₁ (line :: rest) j hj] at hjts
                exact hjts
              · intro k hk hjk
                have hk' := hjno k hk hjk
                rw [getD_append_left_str l₁ (line :: rest) k hk] at hk'
                exact hk'
            obtain ⟨items, hag, himp⟩ := hitems id hcc hne
            have hne2 : items ≠ [] := himp htsE
            cases hgl : items.getLast? with
            | none => exact absurd (List.getLast?_eq_none_iff.mp hgl) hne2
            | some last =>
              rw [fpStep_prompt st line id items last he' hts hp hcc hne hag hgl]
              have hinv' : fpInv (l₁ ++ [line])
                  ⟨aset st.by_id id
                    (items.dropLast ++ [{ last with prompt := parsedVal (pyStrip line) }]),
                   some id⟩ := by
                refine ⟨?_, ?_, ?_, ?_⟩
                · show ((aset st.by_id id _).map Prod.fst).Nodup
                  rw [keys_aset st.by_id id _ items hag]
                  exact hnd
                · show some id = _
                  rw [lastEidVal_append_not l₁ line heid, ← hcur]
                  exact hcc.symm
                · intro id' hid' _
                  simp only [Option.some.injEq] at hid'
                  rw [← hid']
                  exact ⟨_, aget_aset_self _ _ _, fun _ => by simp⟩
                · intro p hp' hne'
                  rcases mem_aset _ _ _ p hp' with h | h
                  · rw [h]
                    exact hne
                  · exact hkeys p h hne'
              obtain ⟨st', hrun, hinv'', htot, hper⟩ := ih (l₁ ++ [line]) _ hpre' hinv'
              have hlen : items.dropLast.length + 1 = items.length := by
                have := List.length_pos_of_ne_nil hne2
                rw [List.length_dropLast]
                omega
              refine ⟨st', hrun, by rw [← happ]; exact hinv'', ?_, ?_⟩
              · rw [htot]
                have hti := sumLen_aset st.by_id id
                  (items.dropLast ++ [{ last with prompt := parsedVal (pyStrip line) }])
                  items hag
                have hacc := acceptedCount_cons_other st.current line rest he' hc2'
                rw [hcc] at hacc
                rw [hacc]
                simp only [totalItems]
                simp only [List.length_append, List.length_cons, List.length_nil] at hti
                omega
              · intro i
                rw [hper i]
                have hacf := acceptedCountFor_cons_other st.current i line rest he' hc2'
                rw [hcc] at hacf
                rw [hacf]
                by_cases hii : i = id
                · rw [hii]
                  simp only [idItems]
                  rw [aget_aset_self, hag]
                  simp only [Option.getD_some, List.length_append, List.length_cons,
                    List.length_nil]
                  omega
                · simp only [idItems]
                  rw [aget_aset_ne st.by_id id i _ hii]
        · have hc3' : (pyStartsWith (pyStrip line) "Prompt:" && truthyId st.current) = false := by
            simpa using hc3
          rw [fpStep_other st line he' hc2' hc3']
          have hinv' : fpInv (l₁ ++ [line]) st := by
            refine ⟨hnd, ?_, ?_, hkeys⟩
            · rw [lastEidVal_append_not l₁ line heid]
              exact hcur
            · intro id hcc hne
              obtain ⟨items, hag, himp⟩ := hitems id hcc hne
              refine ⟨items, hag, fun hts => himp ?_⟩
              have htr : truthyId st.current = true := by
                rw [hcc]
                exact truthyId_some id hne
              have htsf : pyStartsWith (pyStrip line) "Timestamp:" = false := by
                by_contra hb
                rw [Bool.not_eq_false] at hb
                rw [hb, htr] at hc2'
                simp at hc2'
              have hlts : lineTs line = false := by simp [lineTs, htsf]
              exact tsAfterEids_append_elim l₁ line hlts hts
          obtain ⟨st', hrun, hinv'', htot, hper⟩ := ih (l₁ ++ [line]) st hpre' hinv'
          refine ⟨st', hrun, by rw [← happ]; exact hinv'', ?_, ?_⟩
          · rw [htot, acceptedCount_cons_other st.current line rest he' hc2']
          · intro i
            rw [hper i, acceptedCountFor_cons_other st.current i line rest he' hc2']

theorem flatten_filter_count (i : String) : ∀ (m : List (String × List TsEntry)),
    (m.map Prod.fst).Nodup →
    (((m.map (fun p => p.2.map (fun q => PromptRec.mk p.1 q.timestamp q.prompt))).flatten).filter
        (fun r => r.employee_id == i)).length = ((aget m i).getD []).length := by
  intro m
  induction m with
  | nil =>
    intro _
    simp [aget]
  | cons p m ih =>
    intro hnd
    rw [List.map_cons, List.flatten_cons, List.filter_append, List.length_append, aget_cons]
    have hnd' : (m.map Prod.fst).Nodup := (List.nodup_cons.mp (by simpa using hnd)).2
    have hnotin : p.1 ∉ m.map Prod.fst := (List.nodup_cons.mp (by simpa using hnd)).1
    by_cases hpi : p.1 = i
    · rw [if_pos hpi]
      have hhead : (p.2.map (fun q => PromptRec.mk p.1 q.timestamp q.prompt)).filter
          (fun r => r.employee_id == i) =
          p.2.map (fun q => PromptRec.mk p.1 q.timestamp q.prompt) := by
        apply List.filter_eq_self.mpr
        intro a ha
        obtain ⟨q, _, hq⟩ := List.mem_map.mp ha
        rw [← hq]
        simp [hpi]
      rw [hhead, List.length_map]
      have hnone : aget m i = none := by
        rw [aget_eq_none_iff]
        intro q hq hqi
        apply hnotin
        rw [hpi, ← hqi]
        exact List.mem_map_of_mem Prod.fst hq
      rw [ih hnd', hnone]
      simp
    · rw [if_neg hpi]
      have hhead : (p.2.map (fun q => PromptRec.mk p.1 q.timestamp q.prompt)).filter
          (fun r => r.employee_id == i) = [] := by
        apply List.filter_eq_nil_iff.mpr
        intro a ha
        obtain ⟨q, _, hq⟩ := List.mem_map.mp ha
        rw [← hq]
        simp [hpi]
      rw [hhead]
      simp only [List.length_nil, Nat.zero_add]
      exact ih hnd'

/-- **Claim C10, counterexample.**  The claim promises one record per
timestamp line; but a `Timestamp:` line occurring before any `Employee ID:`
line is silently dropped: this input satisfies the claim's precondition
(it has no `Prompt:` line), has one timestamp line, and yields no record. -/
theorem c10_counterexample :
    fpPre ["Timestamp: 12:01"] ∧
    (["Timestamp: 12:01"].filter lineTs).length = 1 ∧
    extract_flagged_prompts ["Timestamp: 12:01"] = .ok [] := by
  refine ⟨?_, by decide, rfl⟩
  intro i hi hlp hex
  simp only [List.length_cons, List.length_nil] at hi
  have h0 : i = 0 := by omega
  subst h0
  exact absurd hlp (by decide)

/-- **Claim C10** (amended).  If every `Prompt:` line that follows some
`Employee ID:` line is preceded by a `Timestamp:` line after the most recent
`Employee ID:` line, then `extract_flagged_prompts` completes without error
(the `[-1]` indexing never hits an empty list), and returns exactly one
record per timestamp line that is accepted — i.e. one that follows an
`Employee ID:` line carrying a non-empty id — each record carrying a
non-empty employee id, and tagged with the id that was current when its
timestamp line was read: for every id `i`, the number of returned records
whose employee id is `i` equals the number of timestamp lines accepted
while `i` was the current id.  Timestamp lines seen before any such
`Employee ID:` line yield no record. -/
theorem c10_amended_claim (lines : List String) (hpre : fpPre lines) :
    ∃ res, extract_flagged_prompts lines = .ok res ∧
      res.length = acceptedCount none lines ∧
      (∀ r ∈ res, r.employee_id ≠ "") ∧
      ∀ i, (res.filter (fun r => r.employee_id == i)).length =
        acceptedCountFor none i lines := by
  have hinv0 : fpInv [] ⟨[], none⟩ := by
    refine ⟨by simp, rfl, ?_, ?_⟩
    · intro id h
      exact absurd h (by simp)
    · intro p hp
      exact absurd hp (List.not_mem_nil p)
  obtain ⟨st', hrun, hinv, htot, hper⟩ :=
    fpLoop lines [] ⟨[], none⟩ (by simpa using hpre) hinv0
  refine ⟨(st'.by_id.map (fun p => p.2.map
      (fun q => PromptRec.mk p.1 q.timestamp q.prompt))).flatten, ?_, ?_, ?_, ?_⟩
  · unfold extract_flagged_prompts
    rw [hrun]
    rfl
  · rw [List.length_flatten, List.map_map]
    have hmc : (List.map (List.length ∘ fun p : String × List TsEntry =>
        p.2.map (fun q => PromptRec.mk p.1 q.timestamp q.prompt)) st'.by_id)
        = st'.by_id.map (fun p => p.2.length) := by
      apply List.map_congr_left
      intro p _
      simp
    rw [hmc]
    rw [show (st'.by_id.map (fun p => p.2.length)).sum = totalItems st' from rfl, htot]
    show (0 : Nat) + acceptedCount none lines = acceptedCount none lines
    omega
  · intro r hr
    rw [List.mem_flatten] at hr
    obtain ⟨l, hl, hrl⟩ := hr
    obtain ⟨p, hp, hpl⟩ := List.mem_map.mp hl
    rw [← hpl] at hrl
    obtain ⟨q, hq, hqr⟩ := List.mem_map.mp hrl
    have hne : p.2 ≠ [] := fun e => by
      rw [e] at hq
      exact List.not_mem_nil q hq
    have hid := hinv.2.2.2 p hp hne
    rw [← hqr]
    exact hid
  · intro i
    rw [flatten_filter_count i st'.by_id hinv.1]
    have hp := hper i
    rw [show ((aget st'.by_id i).getD []).length = idItems st' i from rfl, hp]
    show (0 : Nat) + acceptedCountFor none i lines = acceptedCountFor none i lines
    omega

/-- Witness for C10 at a concrete well-formed prompts file. -/
theorem c10_witness :
    fpPre ["Employee ID: E1", "Timestamp: 12:00", "Prompt: hello"] ∧
    ∃ res, extract_flagged_prompts
        ["Employee ID: E1", "Timestamp: 12:00", "Prompt: hello"] = .ok res ∧
      res.length = acceptedCount none
        ["Employee ID: E1", "Timestamp: 12:00", "Prompt: hello"] ∧
      (∀ r ∈ res, r.employee_id ≠ "") ∧
      ∀ i, (res.filter (fun r => r.employee_id == i)).length =
        acceptedCountFor none i
          ["Employee ID: E1", "Timestamp: 12:00", "Prompt: hello"] := by
  have hpre : fpPre ["Employee ID: E1", "Timestamp: 12:00", "Prompt: hello"] := by
    intro i hi hlp hex
    simp only [List.length_cons, List.length_nil] at hi
    interval_cases i
    · exact absurd hlp (by decide)
    · exact absurd hlp (by decide)
    · refine ⟨1, by omega, by decide, ?_⟩
      intro k hk hjk
      exact absurd hjk (by omega)
  exact ⟨hpre, c10_amended_claim _ hpre⟩
